import Mathlib

/-!
# Web API key management (`webapi.go`)

A shallow embedding of the three operations of `webapi.go`
(`RegisterWebAPIKey`, `GetWebAPIKey`, `RevokeWebAPIKey`) together with the
parts of the Go standard library they call: `regexp` (for the two patterns
of the file), `net/url` (`Values.Encode`, `QueryEscape`, `ParseQuery`), `net/http`
(`NewRequest`, the client) and `ioutil.ReadAll`.

Conventions.
* A Go `string` / `[]byte` is a Lean `String`, that is, text; the algorithms
  work on its list of characters. All patterns and constants of the file
  are ASCII, for which Go's matching by runes and matching by bytes agree.
* A Go `error` is `Option Error` (`none` is `nil`).
* A method with a pointer receiver returns the session after the call next
  to its Go results.
-/

namespace Steam

/-! ## Errors -/

/-- Go `error` values. The four sentinels are the package variables of
`webapi.go` (lines 23-26); `external` stands for every error value created
outside the package (transport, I/O, regexp syntax). -/
inductive Error
  | ErrCannotRegisterKey
  | ErrCannotRevokeKey
  | ErrAccessDenied
  | ErrKeyNotFound
  | external (msg : String)
  deriving DecidableEq, Repr

/-! ## `regexp`: the fragment of RE2 syntax used by the package

The patterns of `webapi.go` are built from literal characters, one bracket
class of ranges, the `+` repetition of a single character or class, and
capture groups. `Compile` parses exactly this fragment; every other
metacharacter is reported as an error. Matching is the leftmost-first
(backtracking) semantics of Go's `regexp`. -/

/-- A matcher for one character: a literal, or a bracket class given by its
inclusive ranges. -/
inductive Atom
  | char (c : Char)
  | cls (ranges : List (Char × Char))
  deriving DecidableEq, Repr

/-- Does the atom accept the character? -/
def Atom.accepts : Atom → Char → Bool
  | .char c, x => x == c
  | .cls ranges, x => ranges.any (fun r => decide (r.1 ≤ x) && decide (x ≤ r.2))

/-- Instructions of a compiled pattern, in sequence. `capture slot` records
the current offset in capture slot `slot` (slots `2i` and `2i+1` delimit
group `i`, as in Go's `syntax.InstCapture`). -/
inductive Inst
  | one (a : Atom)
  | plus (a : Atom)
  | capture (slot : Nat)
  deriving DecidableEq, Repr

/-- A compiled regular expression: its program and its number of
parenthesised groups. -/
structure Regexp where
  prog : List Inst
  numSubexp : Nat
  deriving DecidableEq, Repr

/-- Parser state inside a bracket class: the finished ranges (latest first),
a single character that may still open a range, and whether a `-` followed
it. -/
structure ClassAcc where
  ranges : List (Char × Char)
  lo : Option Char
  dash : Bool
  deriving DecidableEq, Repr

/-- Parser state: instructions emitted so far (latest first), number of
groups opened so far, the groups still open (innermost first), and the
bracket class being read, if any. -/
structure ParseState where
  insts : List Inst
  numSubexp : Nat
  opened : List Nat
  cls : Option ClassAcc
  deriving DecidableEq, Repr

/-- Characters with a special meaning outside a bracket class that the
fragment does not give a meaning to: `\ . * ? | ^ $ { } ]`. -/
def isUnsupportedMeta (c : Char) : Bool :=
  c == '\\' || c == '.' || c == '*' || c == '?' || c == '|' || c == '^' || c == '$'
    || c == '\x7b' || c == '\x7d' || c == ']'

/-- The ranges of a bracket class at its closing `]`: a pending single
character is a one-character range, a trailing `-` is a literal `-`. -/
def ClassAcc.finish (a : ClassAcc) : List (Char × Char) :=
  let withLo := match a.lo with
    | some x => (x, x) :: a.ranges
    | none => a.ranges
  let withDash := if a.dash then ('-', '-') :: withLo else withLo
  withDash.reverse

/-- One step of the parser inside a bracket class. -/
def classStep (st : ParseState) (a : ClassAcc) (c : Char) : Except Error ParseState :=
  if c = ']' then
    match a.finish with
    | [] => .error (.external "error parsing regexp: missing closing ]")
    | rs => .ok { st with insts := .one (.cls rs) :: st.insts, cls := none }
  else if c = '\\' ∨ c = '[' ∨ c = '^' then
    .error (.external "error parsing regexp: unsupported character class")
  else
    match a.lo, a.dash with
    | some x, true =>
      if x ≤ c then .ok { st with cls := some ⟨(x, c) :: a.ranges, none, false⟩ }
      else .error (.external "error parsing regexp: invalid character class range")
    | some x, false =>
      if c = '-' then .ok { st with cls := some ⟨a.ranges, some x, true⟩ }
      else .ok { st with cls := some ⟨(x, x) :: a.ranges, some c, false⟩ }
    | none, _ =>
      if c = '-' then .error (.external "error parsing regexp: unsupported character class")
      else .ok { st with cls := some ⟨a.ranges, some c, false⟩ }

/-- One step of the parser outside a bracket class. -/
def topStep (st : ParseState) (c : Char) : Except Error ParseState :=
  if c = '(' then
    .ok { st with insts := .capture (2 * (st.numSubexp + 1)) :: st.insts,
                  numSubexp := st.numSubexp + 1,
                  opened := (st.numSubexp + 1) :: st.opened }
  else if c = ')' then
    match st.opened with
    | [] => .error (.external "error parsing regexp: unexpected )")
    | i :: rest => .ok { st with insts := .capture (2 * i + 1) :: st.insts, opened := rest }
  else if c = '[' then
    .ok { st with cls := some ⟨[], none, false⟩ }
  else if c = '+' then
    match st.insts with
    | .one a :: rest => .ok { st with insts := .plus a :: rest }
    | _ => .error (.external "error parsing regexp: missing argument to repetition operator")
  else if isUnsupportedMeta c then
    .error (.external "error parsing regexp: unsupported operator")
  else
    .ok { st with insts := .one (.char c) :: st.insts }

/-- The parser: one character at a time. -/
def parse : List Char → ParseState → Except Error Regexp
  | [], st =>
    match st.cls, st.opened with
    | some _, _ => .error (.external "error parsing regexp: missing closing ]")
    | none, _ :: _ => .error (.external "error parsing regexp: missing closing )")
    | none, [] => .ok ⟨st.insts.reverse, st.numSubexp⟩
  | c :: rest, st =>
    match (match st.cls with
           | some a => classStep st a c
           | none => topStep st c) with
    | .error e => .error e
    | .ok st' => parse rest st'

namespace regexp

/-- Go `regexp.Compile`, for the fragment described above. -/
def Compile (expr : String) : Except Error Regexp :=
  parse expr.data ⟨[], 0, [], none⟩

end regexp

/-- Capture slots written during a match, latest first: `(slot, offset)`. -/
abbrev Caps := List (Nat × Nat)

/-- Greedy `a+` followed by the continuation `k`: take one accepted
character, then prefer taking more, and fall back to continuing here. -/
def matchPlus {R : Type} (a : Atom) (k : List Char → Nat → Option R) :
    List Char → Nat → Option R
  | [], _ => none
  | c :: cs, pos =>
    if a.accepts c then
      match matchPlus a k cs (pos + 1) with
      | some r => some r
      | none => k cs (pos + 1)
    else none

/-- Run the program on the input `s`, which starts at offset `pos` of the
whole text. On success the capture slots are returned, with slot 1 set to
the end of the match. -/
def matchHere : List Inst → Caps → List Char → Nat → Option Caps
  | [], cap, _, pos => some ((1, pos) :: cap)
  | .one _ :: _, _, [], _ => none
  | .one a :: is, cap, c :: cs, pos =>
    if a.accepts c then matchHere is cap cs (pos + 1) else none
  | .plus a :: is, cap, s, pos =>
    matchPlus a (fun s' pos' => matchHere is cap s' pos') s pos
  | .capture slot :: is, cap, s, pos => matchHere is ((slot, pos) :: cap) s pos

/-- Leftmost match: try every start offset in increasing order. -/
def search (prog : List Inst) : List Char → Nat → Option Caps
  | [], pos => matchHere prog [(0, pos)] [] pos
  | c :: cs, pos =>
    match matchHere prog [(0, pos)] (c :: cs) pos with
    | some cap => some cap
    | none => search prog cs (pos + 1)

/-- Go `re.doExecute`: the capture slots of the leftmost match, if any. -/
def Regexp.doExecute (re : Regexp) (s : List Char) : Option Caps :=
  search re.prog s 0

/-- Go `re.Match` / `re.MatchString`: is there a match anywhere? -/
def Regexp.Match (re : Regexp) (b : String) : Bool :=
  (re.doExecute b.data).isSome

/-- Go slice expression `s[lo:hi]`. -/
def slice (s : List Char) (lo hi : Nat) : List Char :=
  (s.drop lo).take (hi - lo)

/-- Go `re.FindStringSubmatch`: `nil` when there is no match, otherwise the
text of the leftmost match followed by the text of each group. -/
def Regexp.FindStringSubmatch (re : Regexp) (s : String) : List String :=
  match re.doExecute s.data with
  | none => []
  | some a =>
    (List.range (1 + re.numSubexp)).map fun i =>
      match a.lookup (2 * i), a.lookup (2 * i + 1) with
      | some lo, some hi => String.mk (slice s.data lo hi)
      | _, _ => ""

namespace regexp

/-- Go `regexp.Match(pattern, b)`: compile, then match. -/
def Match (pattern : String) (b : String) : Bool × Option Error :=
  match Compile pattern with
  | .error err => (false, some err)
  | .ok re => (re.Match b, none)

/-- Go `regexp.MustCompile`: like `Compile`, but panics (while the package is
initialised) when the pattern does not compile. The caller supplies the
evidence that it compiles, so the panic cannot happen. -/
def MustCompile (str : String) (h : (Compile str).toOption.isSome) : Regexp :=
  (Compile str).toOption.get h

end regexp

/-! ## `net/url` -/

namespace url

/-- Go `url.Values` (`map[string][]string`): the entries of the map, with
distinct keys. -/
abbrev Values := List (String × List String)

/-- Go `shouldEscape(c, encodeQueryComponent)` on a byte: letters, digits and
`- _ . ~` are kept, every other byte is escaped. -/
def shouldEscape (c : Nat) : Bool :=
  if (97 ≤ c ∧ c ≤ 122) ∨ (65 ≤ c ∧ c ≤ 90) ∨ (48 ≤ c ∧ c ≤ 57) then false
  else if c = 45 ∨ c = 95 ∨ c = 46 ∨ c = 126 then false
  else true

/-- Go `upperhex[i]`, the digits `"0123456789ABCDEF"`. -/
def upperhex (i : Nat) : Char :=
  if i < 10 then Char.ofNat (48 + i) else Char.ofNat (55 + i)

/-- The bytes of the UTF-8 encoding of a character. -/
def utf8Bytes (c : Char) : List Nat :=
  let v := c.toNat
  if v < 128 then [v]
  else if v < 2048 then [192 + v / 64, 128 + v % 64]
  else if v < 65536 then [224 + v / 4096, 128 + v / 64 % 64, 128 + v % 64]
  else [240 + v / 262144, 128 + v / 4096 % 64, 128 + v / 64 % 64, 128 + v % 64]

/-- The output of Go `escape(s, encodeQueryComponent)` for one byte. -/
def escapeByte (b : Nat) : List Char :=
  if b = 32 then ['+']
  else if shouldEscape b then ['%', upperhex (b / 16), upperhex (b % 16)]
  else [Char.ofNat b]

/-- Go `url.QueryEscape`. -/
def QueryEscape (s : String) : String :=
  String.mk (s.data.flatMap fun c => (utf8Bytes c).flatMap escapeByte)

/-- Go's `<` on strings: lexicographic order of the bytes, which for UTF-8
text is the lexicographic order of the code points. -/
def less : List Char → List Char → Bool
  | _, [] => false
  | [], _ :: _ => true
  | a :: as, b :: bs =>
    if a.toNat < b.toNat then true
    else if b.toNat < a.toNat then false
    else less as bs

/-- Insert an entry into a list of entries sorted by key. -/
def insertByKey (e : String × List String) : Values → Values
  | [] => [e]
  | x :: xs => if less e.1.data x.1.data then e :: x :: xs else x :: insertByKey e xs

/-- The entries sorted by key (Go `slices.Sort(keys)`). -/
def sortByKey : Values → Values
  | [] => []
  | e :: es => insertByKey e (sortByKey es)

/-- Go `Values.Encode`: `key=value` pairs, keys sorted, both sides query
escaped, joined by `&`. -/
def Values.Encode (v : Values) : String :=
  "&".intercalate
    ((sortByKey v).flatMap fun e => e.2.map fun val => QueryEscape e.1 ++ "=" ++ QueryEscape val)

/-- Go `ishex`. -/
def ishex (c : Char) : Bool :=
  (decide ('0' ≤ c) && decide (c ≤ '9')) || (decide ('a' ≤ c) && decide (c ≤ 'f'))
    || (decide ('A' ≤ c) && decide (c ≤ 'F'))

/-- Go `unhex`. -/
def unhex (c : Char) : Nat :=
  if '0' ≤ c ∧ c ≤ '9' then c.toNat - 48
  else if 'a' ≤ c ∧ c ≤ 'f' then c.toNat - 97 + 10
  else if 'A' ≤ c ∧ c ≤ 'F' then c.toNat - 65 + 10
  else 0

/-- The byte written by the two hexadecimal digits at the head of the text,
if there are two. -/
def hexPair : List Char → Option Nat
  | a :: b :: _ => if ishex a && ishex b then some (unhex a * 16 + unhex b) else none
  | _ => none

/-- Go `unescape(s, encodeQueryComponent)`, giving the bytes of the result,
after skipping `skip` characters that belong to the escape read last:
`%XX` is the byte `XX`, `+` is a space, every other character stands for
itself; a `%` not followed by two hexadecimal digits is an error. -/
def unescapeFrom : Nat → List Char → Except Error (List Nat)
  | _, [] => .ok []
  | skip + 1, _ :: rest => unescapeFrom skip rest
  | 0, c :: rest =>
    if c = '%' then
      match hexPair rest with
      | none => .error (.external "invalid URL escape")
      | some b =>
        match unescapeFrom 2 rest with
        | .ok bs => .ok (b :: bs)
        | .error e => .error e
    else
      match unescapeFrom 0 rest with
      | .ok bs => .ok ((if c = '+' then [32] else utf8Bytes c) ++ bs)
      | .error e => .error e

/-- Go `unescape(s, encodeQueryComponent)`, giving the bytes of the result. -/
def unescape (s : List Char) : Except Error (List Nat) :=
  unescapeFrom 0 s

/-- A continuation byte of UTF-8, `10xxxxxx`. -/
def isCont (b : Nat) : Bool :=
  decide (128 ≤ b) && decide (b < 192)

/-- The character that starts at byte `b0` followed by the bytes `rest`, and
the number of bytes of `rest` that belong to it; `none` when no well-formed
UTF-8 sequence starts here. -/
def decodeRune (b0 : Nat) (rest : List Nat) : Option (Char × Nat) :=
  if b0 < 128 then some (Char.ofNat b0, 0)
  else
    match rest with
    | [] => none
    | b1 :: rest1 =>
      let n2 := (b0 - 192) * 64 + (b1 - 128)
      if 192 ≤ b0 ∧ b0 < 224 ∧ isCont b1 = true ∧ 128 ≤ n2 then some (Char.ofNat n2, 1)
      else
        match rest1 with
        | [] => none
        | b2 :: rest2 =>
          let n3 := (b0 - 224) * 4096 + (b1 - 128) * 64 + (b2 - 128)
          if 224 ≤ b0 ∧ b0 < 240 ∧ isCont b1 = true ∧ isCont b2 = true ∧ 2048 ≤ n3
              ∧ (n3 < 55296 ∨ 57343 < n3) then some (Char.ofNat n3, 2)
          else
            match rest2 with
            | [] => none
            | b3 :: _ =>
              let n4 := (b0 - 240) * 262144 + (b1 - 128) * 4096 + (b2 - 128) * 64
                + (b3 - 128)
              if 240 ≤ b0 ∧ b0 < 248 ∧ isCont b1 = true ∧ isCont b2 = true
                  ∧ isCont b3 = true ∧ 65536 ≤ n4 ∧ n4 < 1114112 then
                some (Char.ofNat n4, 3)
              else none

/-- UTF-8 decoding, after skipping `skip` bytes that belong to the character
decoded last; a byte that starts no well-formed sequence gives U+FFFD. -/
def utf8DecodeFrom : Nat → List Nat → List Char
  | _, [] => []
  | skip + 1, _ :: rest => utf8DecodeFrom skip rest
  | 0, b0 :: rest =>
    match decodeRune b0 rest with
    | some (c, k) => c :: utf8DecodeFrom k rest
    | none => Char.ofNat 65533 :: utf8DecodeFrom 0 rest

/-- The text that a sequence of bytes stands for. -/
def utf8Decode (bs : List Nat) : List Char :=
  utf8DecodeFrom 0 bs

/-- Go `url.QueryUnescape`. -/
def QueryUnescape (s : String) : Except Error String :=
  match unescape s.data with
  | .ok bs => .ok (String.mk (utf8Decode bs))
  | .error e => .error e

/-- The pieces of a text between the occurrences of `sep`. -/
def splitOn (sep : Char) : List Char → List (List Char)
  | [] => [[]]
  | c :: cs =>
    if c = sep then [] :: splitOn sep cs
    else
      match splitOn sep cs with
      | [] => [[c]]
      | s :: ss => (c :: s) :: ss

/-- Go `strings.Cut(s, sep)` for a one-character separator: the text before
the first `sep` and the text after it (all of `s` and nothing when `sep`
does not occur). -/
def cut (sep : Char) : List Char → List Char × List Char
  | [] => ([], [])
  | c :: cs => if c = sep then ([], cs) else ((c :: (cut sep cs).1), (cut sep cs).2)

/-- Go `m[key] = append(m[key], value)`. -/
def addValue : Values → String → String → Values
  | [], key, value => [(key, [value])]
  | (k, vs) :: rest, key, value =>
    if k = key then (k, vs ++ [value]) :: rest else (k, vs) :: addValue rest key value

/-- One round of the loop of Go `parseQuery`, on the piece `seg` between two
`&`. -/
def parseStep (st : Values × Option Error) (seg : List Char) : Values × Option Error :=
  if seg.contains ';' then (st.1, some (.external "invalid semicolon separator in query"))
  else if seg = [] then st
  else
    match QueryUnescape (String.mk (cut '=' seg).1) with
    | .error e1 => (st.1, if st.2 = none then some e1 else st.2)
    | .ok key =>
      match QueryUnescape (String.mk (cut '=' seg).2) with
      | .error e1 => (st.1, if st.2 = none then some e1 else st.2)
      | .ok value => (addValue st.1 key value, st.2)

/-- Go `url.ParseQuery`: the loop of `parseQuery` takes the pieces between
`&` from left to right. -/
def ParseQuery (query : String) : Values × Option Error :=
  (splitOn '&' query.data).foldl parseStep ([], none)

end url

/-! ## `net/http` and `ioutil` -/

namespace http

/-- Go `http.MethodPost`. -/
def MethodPost : String := "POST"

/-- Go `http.StatusOK`. -/
def StatusOK : Int := 200

/-- Go `*http.Request`, as far as this package sets it. -/
structure Request where
  Method : String
  URL : String
  Body : String
  deriving DecidableEq, Repr

/-- Go `resp.Body`, an `io.ReadCloser`: the bytes it delivers and the error
that ends the reading, if any. -/
structure Body where
  data : String
  err : Option Error
  deriving DecidableEq, Repr

/-- Go `*http.Response`, as far as this package reads it. -/
structure Response where
  StatusCode : Int
  Body : Body
  deriving DecidableEq, Repr

/-- What `client.Do` / `client.Get` return, `(resp, err)`. `net/http`
documents that a nil error comes with a non-nil response; with a non-nil
error the response may or may not be nil. -/
inductive Result
  | ok (resp : Response)
  | failed (resp : Option Response) (err : Error)
  deriving DecidableEq, Repr

/-- Go `httpguts.IsTokenRune`: the characters allowed in a method name. -/
def isTokenRune (c : Char) : Bool :=
  c.isAlphanum || "!#$%&*+-.^_|~".data.contains c || c == '\x27' || c == '\x60'

/-- Go `validMethod`. -/
def validMethod (method : String) : Bool :=
  method.length > 0 && method.data.all isTokenRune

/-- Go `stringContainsCTLByte`, the first check of `url.Parse`. -/
def stringContainsCTLByte (s : String) : Bool :=
  s.data.any fun c => c.toNat < 32 || c.toNat = 127

/-- Go `http.NewRequest(method, url, strings.NewReader(body))`. The method
is validated as in Go. Of the failures of `url.Parse` only the control
character check is modelled; the URLs of this package are constants. -/
def NewRequest (method url body : String) : Except Error Request :=
  let method := if method = "" then "GET" else method
  if ¬ validMethod method then .error (.external "net/http: invalid method")
  else if stringContainsCTLByte url then
    .error (.external "net/url: invalid control character in URL")
  else .ok ⟨method, url, body⟩

/-- The session's HTTP client: how it answers `Do(req)` and `Get(url)`. -/
structure Client where
  Do : Request → Result
  Get : String → Result

end http

namespace ioutil

/-- Go `ioutil.ReadAll`: the bytes read and the error, if any. -/
def ReadAll (r : http.Body) : String × Option Error :=
  (r.data, r.err)

end ioutil

/-! ## `webapi.go` -/

/-- Modelled from the spec: the `Session` type is declared outside
`webapi.go`; it holds the authenticated client, the `sessionID` token and
the mutable `apiKey` field. -/
structure Session where
  client : http.Client
  sessionID : String
  apiKey : String

def apiKeyURL : String := "https://steamcommunity.com/dev/apikey"
def apiKeyRegisterURL : String := "https://steamcommunity.com/dev/registerkey"
def apiKeyRevokeURL : String := "https://steamcommunity.com/dev/revokekey"

def accessDeniedPattern : String := "<h2>Access Denied</h2>"

/-- Line 21: `keyRegExp = regexp.MustCompile("<p>Key: ([0-9A-F]+)</p>")`. -/
def keyRegExp : Regexp := regexp.MustCompile "<p>Key: ([0-9A-F]+)</p>" (by decide)

/-- Lines 30-35 of `RegisterWebAPIKey`: the form values. -/
def registerValues (session : Session) (domain : String) : url.Values :=
  [("domain", [domain]),
   ("agreeToTerms", ["agreed"]),
   ("sessionid", [session.sessionID]),
   ("Submit", ["Register"])]

/-- Lines 42-55 of `RegisterWebAPIKey` and 99-112 of `RevokeWebAPIKey`:
turn the client's answer into the returned error. -/
def statusError (r : http.Result) (onStatus : Error) : Option Error :=
  match r with
  | .failed _ err => some err
  | .ok resp => if resp.StatusCode ≠ http.StatusOK then some onStatus else none

/-- `func (session *Session) RegisterWebAPIKey(domain string) error`. -/
def RegisterWebAPIKey (session : Session) (domain : String) : Option Error × Session :=
  let values := registerValues session domain
  match http.NewRequest http.MethodPost apiKeyRegisterURL values.Encode with
  | .error err => (some err, session)
  | .ok req =>
    match session.client.Do req with
    | .failed _ err => (some err, session)
    | .ok resp =>
      if resp.StatusCode ≠ http.StatusOK then (some .ErrCannotRegisterKey, session)
      else (none, session)

/-- `func (session *Session) GetWebAPIKey() (string, error)`. -/
def GetWebAPIKey (session : Session) : (String × Option Error) × Session :=
  match session.client.Get apiKeyURL with
  | .failed _ err => (("", some err), session)
  | .ok resp =>
    match ioutil.ReadAll resp.Body with
    | (_, some err) => (("", some err), session)
    | (body, none) =>
      match regexp.Match accessDeniedPattern body with
      | (_, some err) => (("", some err), session)
      | (true, none) => (("", some .ErrAccessDenied), session)
      | (false, none) =>
        let submatch := keyRegExp.FindStringSubmatch body
        if h : submatch.length ≤ 1 then (("", some .ErrKeyNotFound), session)
        else
          let key := submatch.get ⟨1, Nat.lt_of_not_le h⟩
          ((key, none), { session with apiKey := key })

/-- Lines 89-92 of `RevokeWebAPIKey`: the form values. -/
def revokeValues (session : Session) : url.Values :=
  [("revoke", ["Revoke My Steam Web API Key"]),
   ("sessionid", [session.sessionID])]

/-- `func (session *Session) RevokeWebAPIKey() error`. -/
def RevokeWebAPIKey (session : Session) : Option Error × Session :=
  let values := revokeValues session
  match http.NewRequest http.MethodPost apiKeyRevokeURL values.Encode with
  | .error err => (some err, session)
  | .ok req =>
    match session.client.Do req with
    | .failed _ err => (some err, session)
    | .ok resp =>
      if resp.StatusCode ≠ http.StatusOK then (some .ErrCannotRevokeKey, session)
      else (none, session)

/-! ## Vocabulary of the specification -/

/-- The program of a pattern made of literal characters only. -/
def litProg (l : List Char) : List Inst :=
  l.map fun c => Inst.one (Atom.char c)

/-- The bracket class `[0-9A-F]` as compiled. -/
def hexClass : Atom := Atom.cls [('0', '9'), ('A', 'F')]

/-- An uppercase hexadecimal digit, `0-9` or `A-F`. -/
def isUpperHex (c : Char) : Bool :=
  (decide ('0' ≤ c) && decide (c ≤ '9')) || (decide ('A' ≤ c) && decide (c ≤ 'F'))

/-- A key token: a non-empty run of uppercase hexadecimal digits. -/
def IsKeyToken (h : String) : Prop :=
  h.data ≠ [] ∧ ∀ c ∈ h.data, isUpperHex c = true

/-- The text `<p>Key: H</p>`. -/
def keyFragment (h : List Char) : List Char :=
  "<p>Key: ".data ++ h ++ "</p>".data

/-- The capture slots of a match of the key pattern that starts at `pos`
with token `h`. -/
def keyCaps (pos : Nat) (h : List Char) : Caps :=
  [(1, pos + 8 + h.length + 4), (3, pos + 8 + h.length), (2, pos + 8), (0, pos)]

/-- The body contains the text `marker`. -/
def Contains (body marker : String) : Prop :=
  marker.data <:+: body.data

/-- An unreserved character of RFC 3986: an ASCII letter or digit, or one of
`- _ . ~`. -/
def isUnreserved (c : Char) : Bool :=
  c.isAlphanum || c == '-' || c == '_' || c == '.' || c == '~'

instance (body marker : String) : Decidable (Contains body marker) :=
  List.decidableInfix _ _

/-- The characters with a special meaning in Go's regular expressions:
`\ . + * ? ( ) | [ ] { } ^ $`. -/
def isMetaChar (c : Char) : Bool :=
  "\\.+*?()|[]\x7b\x7d^$".data.contains c

/-- The encoded form field `key=value`. -/
def fieldSeg (key value : String) : List Char :=
  (url.QueryEscape key).data ++ '=' :: (url.QueryEscape value).data

/-- A stub transport that answers every request with `r`. -/
def stubClient (r : http.Result) : http.Client :=
  ⟨fun _ => r, fun _ => r⟩

/-- The request `RegisterWebAPIKey` builds (lines 30-37). -/
def registerRequest (session : Session) (domain : String) : http.Request :=
  ⟨http.MethodPost, apiKeyRegisterURL, (registerValues session domain).Encode⟩

/-- The request `RevokeWebAPIKey` builds (lines 89-94). -/
def revokeRequest (session : Session) : http.Request :=
  ⟨http.MethodPost, apiKeyRevokeURL, (revokeValues session).Encode⟩

/-- A fragment `<p>Key: H</p>` with `H` a key token starts at offset `n` of
the body. -/
def KeyFragmentAt (body : String) (n : Nat) (h : String) : Prop :=
  IsKeyToken h ∧ ∃ pre post, pre.length = n ∧ body.data = pre ++ keyFragment h.data ++ post

/-- The body contains a fragment matching `<p>Key: ([0-9A-F]+)</p>`. -/
def HasKeyFragment (body : String) : Prop :=
  ∃ n h, KeyFragmentAt body n h

/-- The leftmost fragment of the form `<p>Key: [0-9A-F]+</p>` in the body is
`<p>Key: H</p>`. -/
def LeftmostKeyFragment (body : String) (h : String) : Prop :=
  ∃ n, KeyFragmentAt body n h ∧ ∀ m h', KeyFragmentAt body m h' → n ≤ m

/-! ## Lemmas on the matcher -/

theorem matchHere_one_char (c : Char) (is : List Inst) (cap : Caps) (x : Char)
    (xs : List Char) (pos : Nat) :
    matchHere (.one (.char c) :: is) cap (x :: xs) pos
      = if x = c then matchHere is cap xs (pos + 1) else none := by
  simp [matchHere, Atom.accepts]

theorem matchHere_litProg_append (l : List Char) (rest : List Inst) (cap : Caps)
    (t : List Char) (pos : Nat) :
    matchHere (litProg l ++ rest) cap (l ++ t) pos
      = matchHere rest cap t (pos + l.length) := by
  induction l generalizing pos with
  | nil => simp [litProg]
  | cons c cs ih =>
    have := ih (pos + 1)
    simp only [litProg, List.map_cons, List.cons_append, List.length_cons] at this ⊢
    rw [matchHere_one_char, if_pos rfl, this]
    congr 1
    omega

theorem matchHere_litProg_some (l : List Char) (rest : List Inst) (cap cap' : Caps)
    (s : List Char) (pos : Nat)
    (h : matchHere (litProg l ++ rest) cap s pos = some cap') :
    ∃ t, s = l ++ t ∧ matchHere rest cap t (pos + l.length) = some cap' := by
  induction l generalizing pos s with
  | nil => exact ⟨s, by simp, by simpa [litProg] using h⟩
  | cons c cs ih =>
    cases s with
    | nil => simp [litProg, matchHere] at h
    | cons x xs =>
      simp only [litProg, List.map_cons, List.cons_append] at h
      rw [matchHere_one_char] at h
      split at h
      · next hx =>
        obtain ⟨t, ht, hm⟩ := ih xs (pos + 1) h
        refine ⟨t, by simp [hx, ht], ?_⟩
        rw [← hm]
        congr 1
        simp only [List.length_cons]
        omega
      · cases h

/-- With a continuation that fails on every accepted character, greedy
repetition takes the maximal run and never backtracks. -/
theorem matchPlus_eq {R : Type} (a : Atom) (k : List Char → Nat → Option R)
    (hk : ∀ c cs p, a.accepts c = true → k (c :: cs) p = none)
    (c : Char) (cs : List Char) (pos : Nat) :
    matchPlus a k (c :: cs) pos
      = if a.accepts c then
          k (cs.dropWhile a.accepts) (pos + 1 + (cs.takeWhile a.accepts).length)
        else none := by
  induction cs generalizing c pos with
  | nil => simp [matchPlus]
  | cons d ds ih =>
    rw [matchPlus]
    by_cases hc : a.accepts c = true
    · rw [if_pos hc, if_pos hc, ih d (pos + 1)]
      by_cases hd : a.accepts d = true
      · simp only [hd, if_true, List.dropWhile_cons, List.takeWhile_cons, List.length_cons]
        rw [hk d ds (pos + 1) hd]
        have e : pos + 1 + 1 + (List.takeWhile a.accepts ds).length
            = pos + 1 + ((List.takeWhile a.accepts ds).length + 1) := by omega
        rw [e]
        cases k (List.dropWhile a.accepts ds)
          (pos + 1 + ((List.takeWhile a.accepts ds).length + 1)) <;> rfl
      · simp [hd]
    · simp [hc]

theorem search_none_iff (prog : List Inst) (s : List Char) (pos : Nat) :
    search prog s pos = none ↔
      ∀ pre t, s = pre ++ t →
        matchHere prog [(0, pos + pre.length)] t (pos + pre.length) = none := by
  induction s generalizing pos with
  | nil =>
    simp only [search]
    constructor
    · intro h pre t hs
      obtain ⟨hp, ht⟩ := List.append_eq_nil.1 hs.symm
      subst hp ht
      simpa using h
    · intro h
      simpa using h [] [] rfl
  | cons c cs ih =>
    simp only [search]
    constructor
    · intro h pre t hs
      cases hm : matchHere prog [(0, pos)] (c :: cs) pos with
      | some cap => simp [hm] at h
      | none =>
        simp only [hm] at h
        cases pre with
        | nil => simp at hs; simpa [← hs] using hm
        | cons p ps =>
          simp only [List.cons_append, List.cons.injEq] at hs
          have := (ih (pos + 1)).1 h ps t hs.2
          simpa [Nat.add_assoc, Nat.add_comm 1] using this
    · intro h
      have h0 := h [] (c :: cs) rfl
      simp only [List.length_nil, Nat.add_zero] at h0
      rw [h0]
      refine (ih (pos + 1)).2 ?_
      intro pre t hs
      have := h (c :: pre) t (by simp [hs])
      simpa [Nat.add_assoc, Nat.add_comm 1] using this

theorem search_some_inv (prog : List Inst) (s : List Char) (pos : Nat) (cap : Caps)
    (h : search prog s pos = some cap) :
    ∃ pre t, s = pre ++ t ∧
      matchHere prog [(0, pos + pre.length)] t (pos + pre.length) = some cap ∧
      ∀ pre' t', s = pre' ++ t' → pre'.length < pre.length →
        matchHere prog [(0, pos + pre'.length)] t' (pos + pre'.length) = none := by
  induction s generalizing pos with
  | nil =>
    refine ⟨[], [], rfl, by simpa [search] using h, ?_⟩
    intro pre' t' _ hlt
    simp at hlt
  | cons c cs ih =>
    simp only [search] at h
    cases hm : matchHere prog [(0, pos)] (c :: cs) pos with
    | some cap' =>
      simp only [hm, Option.some.injEq] at h
      refine ⟨[], c :: cs, rfl, by simpa [h] using hm, ?_⟩
      intro pre' t' _ hlt
      simp at hlt
    | none =>
      simp only [hm] at h
      obtain ⟨pre, t, hs, hmt, hleft⟩ := ih (pos + 1) h
      refine ⟨c :: pre, t, by simp [hs], ?_, ?_⟩
      · simpa [Nat.add_assoc, Nat.add_comm 1] using hmt
      · intro pre' t' hs' hlt
        cases pre' with
        | nil => simp at hs'; simpa [← hs'] using hm
        | cons p ps =>
          simp only [List.cons_append, List.cons.injEq] at hs'
          have := hleft ps t' hs'.2 (by simpa using hlt)
          simpa [Nat.add_assoc, Nat.add_comm 1] using this

theorem search_eq_of_leftmost (prog : List Inst) (pre t : List Char) (pos : Nat) (cap : Caps)
    (hm : matchHere prog [(0, pos + pre.length)] t (pos + pre.length) = some cap)
    (hleft : ∀ pre' t', pre ++ t = pre' ++ t' → pre'.length < pre.length →
      matchHere prog [(0, pos + pre'.length)] t' (pos + pre'.length) = none) :
    search prog (pre ++ t) pos = some cap := by
  cases hs : search prog (pre ++ t) pos with
  | none =>
    have := (search_none_iff prog (pre ++ t) pos).1 hs pre t rfl
    rw [this] at hm
    cases hm
  | some cap' =>
    obtain ⟨p, u, hpu, hmu, hl⟩ := search_some_inv prog (pre ++ t) pos cap' hs
    rcases Nat.lt_trichotomy p.length pre.length with hlt | heq | hgt
    · rw [hleft p u hpu hlt] at hmu
      cases hmu
    · have hp : p = pre := by
        have := congrArg (List.take p.length) hpu
        rw [List.take_left, heq, List.take_left] at this
        exact this.symm
      subst hp
      have hu : u = t := (List.append_cancel_left hpu).symm
      subst hu
      rw [hm] at hmu
      exact hmu.symm ▸ rfl
    · rw [hl pre t rfl hgt] at hm
      cases hm

/-! ## The two patterns of the package -/

theorem hexClass_accepts (c : Char) : hexClass.accepts c = isUpperHex c := by
  simp [hexClass, Atom.accepts, isUpperHex]

theorem compile_accessDeniedPattern :
    regexp.Compile accessDeniedPattern = .ok ⟨litProg accessDeniedPattern.data, 0⟩ := rfl

theorem keyRegExp_eq :
    keyRegExp = ⟨litProg "<p>Key: ".data
      ++ Inst.capture 2 :: Inst.plus hexClass :: Inst.capture 3 :: litProg "</p>".data, 1⟩ := rfl

theorem matchHere_litProg_iff (l : List Char) (cap cap' : Caps) (s : List Char) (pos : Nat) :
    matchHere (litProg l) cap s pos = some cap' ↔
      (∃ t, s = l ++ t) ∧ cap' = (1, pos + l.length) :: cap := by
  constructor
  · intro h
    rw [← List.append_nil (litProg l)] at h
    obtain ⟨t, ht, hm⟩ := matchHere_litProg_some l [] cap cap' s pos h
    simp only [matchHere, Option.some.injEq] at hm
    exact ⟨⟨t, ht⟩, hm.symm⟩
  · rintro ⟨⟨t, rfl⟩, rfl⟩
    rw [← List.append_nil (litProg l), matchHere_litProg_append]
    simp [matchHere]

/-- A literal pattern matches somewhere exactly when the text contains it. -/
theorem search_litProg_isSome (l s : List Char) :
    (search (litProg l) s 0).isSome = true ↔ l <:+: s := by
  constructor
  · intro h
    obtain ⟨cap, hc⟩ := Option.isSome_iff_exists.1 h
    obtain ⟨pre, t, hs, hm, -⟩ := search_some_inv _ _ _ _ hc
    obtain ⟨⟨u, hu⟩, -⟩ := (matchHere_litProg_iff _ _ _ _ _).1 hm
    exact ⟨pre, u, by rw [hs, hu, List.append_assoc]⟩
  · rintro ⟨pre, post, hs⟩
    cases hn : search (litProg l) s 0 with
    | some _ => rfl
    | none =>
      have := (search_none_iff _ _ _).1 hn pre (l ++ post) (by rw [← hs, List.append_assoc])
      rw [← List.append_nil (litProg l), matchHere_litProg_append] at this
      simp [matchHere] at this

/-- The denial check never fails and is literal containment. -/
theorem regexp_Match_accessDenied (body : String) :
    (regexp.Match accessDeniedPattern body).2 = none ∧
      ((regexp.Match accessDeniedPattern body).1 = true ↔ Contains body accessDeniedPattern) := by
  simp only [regexp.Match, compile_accessDeniedPattern, Regexp.Match, Regexp.doExecute, Contains]
  exact ⟨trivial, search_litProg_isSome _ _⟩

/-- The continuation after the class repetition of the key pattern fails on
every hexadecimal digit, since it asks for `<`. -/
theorem keyTail_fails (cap : Caps) (c : Char) (cs : List Char) (p : Nat)
    (hc : hexClass.accepts c = true) :
    matchHere (Inst.capture 3 :: litProg "</p>".data) cap (c :: cs) p = none := by
  have hne : c ≠ '<' := by
    rintro rfl
    rw [hexClass_accepts] at hc
    revert hc
    decide
  have e : litProg "</p>".data
      = Inst.one (Atom.char '<') :: litProg "/p>".data := rfl
  rw [matchHere, e, matchHere_one_char, if_neg hne]

theorem matchHere_key_iff (s : List Char) (pos : Nat) (cap : Caps) :
    matchHere keyRegExp.prog [(0, pos)] s pos = some cap ↔
      ∃ h post, h ≠ [] ∧ (∀ c ∈ h, isUpperHex c = true) ∧
        s = keyFragment h ++ post ∧ cap = keyCaps pos h := by
  rw [keyRegExp_eq]
  constructor
  · intro hm
    obtain ⟨u, hu, hm⟩ := matchHere_litProg_some _ _ _ _ _ _ hm
    rw [matchHere, matchHere] at hm
    cases u with
    | nil => simp [matchPlus] at hm
    | cons c cs =>
      rw [matchPlus_eq hexClass _ (fun c cs p hc => keyTail_fails _ c cs p hc)] at hm
      split at hm
      · next hc =>
        rw [matchHere] at hm
        obtain ⟨⟨post, hpost⟩, hcap⟩ := (matchHere_litProg_iff _ _ _ _ _).1 hm
        refine ⟨c :: cs.takeWhile hexClass.accepts, post, by simp, ?_, ?_, ?_⟩
        · intro x hx
          rcases List.mem_cons.1 hx with rfl | hx
          · rw [← hexClass_accepts]; exact hc
          · rw [← hexClass_accepts]; exact List.mem_takeWhile_imp hx
        · rw [hu, keyFragment]
          have := List.takeWhile_append_dropWhile hexClass.accepts cs
          rw [hpost] at this
          have e : c :: cs = (c :: cs.takeWhile hexClass.accepts) ++ ("</p>".data ++ post) := by
            rw [List.cons_append, this]
          rw [e]
          simp only [List.append_assoc, List.cons_append]
        · rw [hcap, keyCaps]
          have e1 : "<p>Key: ".data.length = 8 := rfl
          have e2 : "</p>".data.length = 4 := rfl
          simp only [e1, e2, List.length_cons]
          simp only [Nat.add_assoc, Nat.add_comm 1]
      · cases hm
  · rintro ⟨h, post, hne, hhex, rfl, rfl⟩
    cases h with
    | nil => exact absurd rfl hne
    | cons c cs =>
      have hacc : ∀ x ∈ cs, hexClass.accepts x = true := fun x hx => by
        rw [hexClass_accepts]; exact hhex x (List.mem_cons_of_mem _ hx)
      have hc : hexClass.accepts c = true := by
        rw [hexClass_accepts]; exact hhex c (List.mem_cons_self _ _)
      have hlt : hexClass.accepts '<' = false := by rw [hexClass_accepts]; decide
      have e : keyFragment (c :: cs) ++ post
          = "<p>Key: ".data ++ (c :: (cs ++ ("</p>".data ++ post))) := by
        simp [keyFragment]
      have etail : "</p>".data ++ post = '<' :: ("/p>".data ++ post) := rfl
      rw [e, matchHere_litProg_append, matchHere, matchHere,
        matchPlus_eq hexClass _ (fun c cs p hc => keyTail_fails _ c cs p hc), if_pos hc,
        List.dropWhile_append_of_pos hacc, List.takeWhile_append_of_pos hacc, etail,
        List.dropWhile_cons_of_neg (by simp [hlt]), List.takeWhile_cons_of_neg (by simp [hlt]),
        ← etail, matchHere]
      rw [(matchHere_litProg_iff _ _ _ _ _).2 ⟨⟨post, rfl⟩, rfl⟩, keyCaps]
      have e1 : "<p>Key: ".data.length = 8 := rfl
      have e2 : "</p>".data.length = 4 := rfl
      simp only [e1, e2, List.length_cons, List.append_nil]
      simp only [Nat.add_assoc, Nat.add_comm 1]

theorem slice_append (pre a post : List Char) :
    slice (pre ++ a ++ post) pre.length (pre.length + a.length) = a := by
  simp [slice, List.append_assoc]

/-- The submatch list of a match of the key pattern: the whole fragment and
the token. -/
theorem findStringSubmatch_of_search (body : String) (pre h post : List Char)
    (hs : search keyRegExp.prog body.data 0 = some (keyCaps pre.length h))
    (hb : body.data = pre ++ keyFragment h ++ post) :
    keyRegExp.FindStringSubmatch body = [String.mk (keyFragment h), String.mk h] := by
  have hw : slice body.data pre.length (pre.length + 8 + h.length + 4) = keyFragment h := by
    have := slice_append pre (keyFragment h) post
    rw [← hb] at this
    have hl : (keyFragment h).length = 8 + h.length + 4 := by
      simp only [keyFragment, List.length_append]; rfl
    rw [hl] at this
    simpa [Nat.add_assoc] using this
  have hk : slice body.data (pre.length + 8) (pre.length + 8 + h.length) = h := by
    have := slice_append (pre ++ "<p>Key: ".data) h ("</p>".data ++ post)
    have e : pre ++ "<p>Key: ".data ++ h ++ ("</p>".data ++ post) = body.data := by
      rw [hb]; simp only [keyFragment, List.append_assoc]
    rw [e] at this
    have hl : (pre ++ "<p>Key: ".data).length = pre.length + 8 := by
      rw [List.length_append]; rfl
    rw [hl] at this
    exact this
  have hn : keyRegExp.numSubexp = 1 := rfl
  simp only [Regexp.FindStringSubmatch, Regexp.doExecute, hs, hn]
  have hr : List.range (1 + 1) = [0, 1] := rfl
  rw [hr]
  simp only [List.map_cons, List.map_nil, keyCaps, List.lookup]
  simp [hw, hk]

theorem search_key_none_iff (body : String) :
    search keyRegExp.prog body.data 0 = none ↔ ¬ HasKeyFragment body := by
  rw [search_none_iff]
  constructor
  · rintro hnone ⟨n, h, ⟨hne, hhex⟩, pre, post, -, hb⟩
    have := hnone pre (keyFragment h.data ++ post) (by rw [hb, List.append_assoc])
    rw [(matchHere_key_iff _ _ _).2 ⟨h.data, post, hne, hhex, rfl, rfl⟩] at this
    cases this
  · intro hno pre t hb
    cases hm : matchHere keyRegExp.prog [(0, 0 + pre.length)] t (0 + pre.length) with
    | none => rfl
    | some cap =>
      obtain ⟨h, post, hne, hhex, rfl, -⟩ := (matchHere_key_iff _ _ _).1 hm
      exact absurd ⟨pre.length, String.mk h, ⟨hne, hhex⟩, pre, post, rfl,
        by rw [hb, List.append_assoc]⟩ hno

theorem findStringSubmatch_key_none (body : String) (hno : ¬ HasKeyFragment body) :
    keyRegExp.FindStringSubmatch body = [] := by
  simp [Regexp.FindStringSubmatch, Regexp.doExecute, (search_key_none_iff body).2 hno]

theorem findStringSubmatch_key_leftmost (body h : String) (hl : LeftmostKeyFragment body h) :
    keyRegExp.FindStringSubmatch body = [String.mk (keyFragment h.data), h] := by
  obtain ⟨n, ⟨⟨hne, hhex⟩, pre, post, hn, hb⟩, hleft⟩ := hl
  subst hn
  refine findStringSubmatch_of_search body pre h.data post ?_ hb
  have hb' : body.data = pre ++ (keyFragment h.data ++ post) := by
    rw [hb, List.append_assoc]
  rw [hb']
  refine search_eq_of_leftmost _ _ _ _ _ ?_ ?_
  · rw [(matchHere_key_iff _ _ _).2 ⟨h.data, post, hne, hhex, rfl, rfl⟩]
    simp
  · intro pre' t' hpt hlt
    cases hm : matchHere keyRegExp.prog [(0, 0 + pre'.length)] t' (0 + pre'.length) with
    | none => rfl
    | some cap =>
      obtain ⟨h', post', hne', hhex', rfl, -⟩ := (matchHere_key_iff _ _ _).1 hm
      have := hleft pre'.length (String.mk h') ⟨⟨hne', hhex'⟩, pre', post', rfl,
        by rw [hb', hpt, List.append_assoc]⟩
      omega

/-- Every body either has no key fragment or has a leftmost one. -/
theorem hasKeyFragment_leftmost (body : String) (hk : HasKeyFragment body) :
    ∃ h, LeftmostKeyFragment body h := by
  cases hs : search keyRegExp.prog body.data 0 with
  | none => exact absurd hk ((search_key_none_iff body).1 hs)
  | some cap =>
    obtain ⟨pre, t, hb, hm, hleft⟩ := search_some_inv _ _ _ _ hs
    obtain ⟨h, post, hne, hhex, rfl, -⟩ := (matchHere_key_iff _ _ _).1 hm
    refine ⟨String.mk h, pre.length, ⟨⟨hne, hhex⟩, pre, post, rfl,
      by rw [hb, List.append_assoc]⟩, ?_⟩
    rintro m h' ⟨⟨hne', hhex'⟩, pre', post', hm', hb'⟩
    by_contra hlt
    have := hleft pre' (keyFragment h'.data ++ post') (by rw [hb', List.append_assoc])
      (by omega)
    rw [(matchHere_key_iff _ _ _).2 ⟨h'.data, post', hne', hhex', rfl, rfl⟩] at this
    cases this

/-! ## `GetWebAPIKey` on a body that was read -/

theorem GetWebAPIKey_denied (session : Session) (resp : http.Response) (body : String)
    (hget : session.client.Get apiKeyURL = .ok resp)
    (hbody : resp.Body = ⟨body, none⟩)
    (hden : Contains body accessDeniedPattern) :
    GetWebAPIKey session = (("", some .ErrAccessDenied), session) := by
  obtain ⟨he, hm⟩ := regexp_Match_accessDenied body
  have h1 := hm.2 hden
  have : regexp.Match accessDeniedPattern body = (true, none) := Prod.ext h1 he
  simp [GetWebAPIKey, hget, hbody, ioutil.ReadAll, this]

theorem GetWebAPIKey_notFound (session : Session) (resp : http.Response) (body : String)
    (hget : session.client.Get apiKeyURL = .ok resp)
    (hbody : resp.Body = ⟨body, none⟩)
    (hden : ¬ Contains body accessDeniedPattern)
    (hno : ¬ HasKeyFragment body) :
    GetWebAPIKey session = (("", some .ErrKeyNotFound), session) := by
  obtain ⟨he, hm⟩ := regexp_Match_accessDenied body
  have h1 : (regexp.Match accessDeniedPattern body).1 = false := by
    cases h : (regexp.Match accessDeniedPattern body).1 with
    | false => rfl
    | true => exact absurd (hm.1 h) hden
  have : regexp.Match accessDeniedPattern body = (false, none) := Prod.ext h1 he
  simp [GetWebAPIKey, hget, hbody, ioutil.ReadAll, this, findStringSubmatch_key_none body hno]

theorem GetWebAPIKey_found (session : Session) (resp : http.Response) (body h : String)
    (hget : session.client.Get apiKeyURL = .ok resp)
    (hbody : resp.Body = ⟨body, none⟩)
    (hden : ¬ Contains body accessDeniedPattern)
    (hl : LeftmostKeyFragment body h) :
    GetWebAPIKey session = ((h, none), { session with apiKey := h }) := by
  obtain ⟨he, hm⟩ := regexp_Match_accessDenied body
  have h1 : (regexp.Match accessDeniedPattern body).1 = false := by
    cases h : (regexp.Match accessDeniedPattern body).1 with
    | false => rfl
    | true => exact absurd (hm.1 h) hden
  have : regexp.Match accessDeniedPattern body = (false, none) := Prod.ext h1 he
  simp [GetWebAPIKey, hget, hbody, ioutil.ReadAll, this,
    findStringSubmatch_key_leftmost body h hl]

/-- Every call of `GetWebAPIKey` ends in one of five ways. -/
theorem GetWebAPIKey_cases (session : Session) :
    (∃ r e, session.client.Get apiKeyURL = .failed r e ∧
        GetWebAPIKey session = (("", some e), session)) ∨
    (∃ resp e, session.client.Get apiKeyURL = .ok resp ∧ resp.Body.err = some e ∧
        GetWebAPIKey session = (("", some e), session)) ∨
    (∃ resp, session.client.Get apiKeyURL = .ok resp ∧ resp.Body.err = none ∧
        Contains resp.Body.data accessDeniedPattern ∧
        GetWebAPIKey session = (("", some .ErrAccessDenied), session)) ∨
    (∃ resp, session.client.Get apiKeyURL = .ok resp ∧ resp.Body.err = none ∧
        ¬ Contains resp.Body.data accessDeniedPattern ∧ ¬ HasKeyFragment resp.Body.data ∧
        GetWebAPIKey session = (("", some .ErrKeyNotFound), session)) ∨
    (∃ resp h, session.client.Get apiKeyURL = .ok resp ∧ resp.Body.err = none ∧
        ¬ Contains resp.Body.data accessDeniedPattern ∧
        LeftmostKeyFragment resp.Body.data h ∧
        GetWebAPIKey session = ((h, none), { session with apiKey := h })) := by
  cases hget : session.client.Get apiKeyURL with
  | failed r e =>
    exact Or.inl ⟨r, e, rfl, by simp [GetWebAPIKey, hget]⟩
  | ok resp =>
    right
    obtain ⟨status, ⟨body, err⟩⟩ := resp
    cases err with
    | some e =>
      exact Or.inl ⟨_, e, rfl, rfl, by simp [GetWebAPIKey, hget, ioutil.ReadAll]⟩
    | none =>
      right
      by_cases hden : Contains body accessDeniedPattern
      · exact Or.inl ⟨_, rfl, rfl, hden, GetWebAPIKey_denied session _ body hget rfl hden⟩
      · right
        by_cases hk : HasKeyFragment body
        · obtain ⟨h, hl⟩ := hasKeyFragment_leftmost body hk
          exact Or.inr ⟨_, h, rfl, rfl, hden, hl,
            GetWebAPIKey_found session _ body h hget rfl hden hl⟩
        · exact Or.inl ⟨_, rfl, rfl, hden, hk,
            GetWebAPIKey_notFound session _ body hget rfl hden hk⟩

theorem NewRequest_post (u body : String) (hu : http.stringContainsCTLByte u = false) :
    http.NewRequest http.MethodPost u body = .ok ⟨http.MethodPost, u, body⟩ := by
  have h1 : http.MethodPost ≠ "" := by decide
  have h2 : http.validMethod http.MethodPost = true := by decide
  simp [http.NewRequest, h1, h2, hu]

theorem RegisterWebAPIKey_eq (session : Session) (domain : String) :
    RegisterWebAPIKey session domain
      = (statusError (session.client.Do (registerRequest session domain))
          .ErrCannotRegisterKey, session) := by
  have hu : http.stringContainsCTLByte apiKeyRegisterURL = false := by decide
  simp only [RegisterWebAPIKey, NewRequest_post _ _ hu, registerRequest, statusError]
  cases session.client.Do _ with
  | failed r e => rfl
  | ok resp => by_cases h : resp.StatusCode = http.StatusOK <;> simp [h]

theorem RevokeWebAPIKey_eq (session : Session) :
    RevokeWebAPIKey session
      = (statusError (session.client.Do (revokeRequest session)) .ErrCannotRevokeKey,
          session) := by
  have hu : http.stringContainsCTLByte apiKeyRevokeURL = false := by decide
  simp only [RevokeWebAPIKey, NewRequest_post _ _ hu, revokeRequest, statusError]
  cases session.client.Do _ with
  | failed r e => rfl
  | ok resp => by_cases h : resp.StatusCode = http.StatusOK <;> simp [h]

/-! ## Form encoding -/

theorem escape_unreserved (c : Char) (h : isUnreserved c = true) :
    (url.utf8Bytes c).flatMap url.escapeByte = [c] := by
  have hn : c.toNat < 128 ∧ c.toNat ≠ 32 ∧ url.shouldEscape c.toNat = false := by
    simp only [isUnreserved, Char.isAlphanum, Char.isAlpha, Char.isUpper, Char.isLower,
      Char.isDigit, Bool.or_eq_true, Bool.and_eq_true, decide_eq_true_eq, beq_iff_eq] at h
    simp only [url.shouldEscape]
    have e : ∀ (d : Char), c = d → c.toNat = d.toNat := fun d hd => by rw [hd]
    have hv : c.val.toNat = c.toNat := rfl
    rcases h with (((((⟨h1, h2⟩ | ⟨h1, h2⟩) | ⟨h1, h2⟩) | h) | h) | h) | h
    · have h1 := UInt32.le_def.1 h1; have h2 := UInt32.le_def.1 h2
      simp only [Fin.le_def] at h1 h2
      have a1 : 65 ≤ c.toNat := h1
      have a2 : c.toNat ≤ 90 := h2
      refine ⟨by omega, by omega, ?_⟩
      simp; omega
    · have h1 := UInt32.le_def.1 h1; have h2 := UInt32.le_def.1 h2
      simp only [Fin.le_def] at h1 h2
      have a1 : 97 ≤ c.toNat := h1
      have a2 : c.toNat ≤ 122 := h2
      refine ⟨by omega, by omega, ?_⟩
      simp; omega
    · have h1 := UInt32.le_def.1 h1; have h2 := UInt32.le_def.1 h2
      simp only [Fin.le_def] at h1 h2
      have a1 : 48 ≤ c.toNat := h1
      have a2 : c.toNat ≤ 57 := h2
      refine ⟨by omega, by omega, ?_⟩
      simp; omega
    · rw [e _ h]; decide
    · rw [e _ h]; decide
    · rw [e _ h]; decide
    · rw [e _ h]; decide
  obtain ⟨h1, h2, h3⟩ := hn
  simp [url.utf8Bytes, h1, url.escapeByte, h2, h3, Char.ofNat_toNat]

theorem QueryEscape_unreserved (s : String) (h : ∀ c ∈ s.data, isUnreserved c = true) :
    url.QueryEscape s = s := by
  have : ∀ l : List Char, (∀ c ∈ l, isUnreserved c = true) →
      (l.flatMap fun c => (url.utf8Bytes c).flatMap url.escapeByte) = l := by
    intro l
    induction l with
    | nil => intro _; rfl
    | cons c cs ih =>
      intro hl
      rw [List.flatMap_cons, escape_unreserved c (hl c (List.mem_cons_self _ _)),
        ih (fun x hx => hl x (List.mem_cons_of_mem _ hx))]
      rfl
  simp only [url.QueryEscape, this s.data h]

/-- The body of the registration request, field by field. -/
theorem registerValues_Encode (session : Session) (domain : String) :
    (registerValues session domain).Encode
      = "Submit=Register&agreeToTerms=agreed&domain=" ++ url.QueryEscape domain
          ++ "&sessionid=" ++ url.QueryEscape session.sessionID := by
  have hs : url.sortByKey (registerValues session domain)
      = [("Submit", ["Register"]), ("agreeToTerms", ["agreed"]), ("domain", [domain]),
         ("sessionid", [session.sessionID])] := rfl
  have q1 : url.QueryEscape "Submit" = "Submit" := by decide
  have q2 : url.QueryEscape "Register" = "Register" := by decide
  have q3 : url.QueryEscape "agreeToTerms" = "agreeToTerms" := by decide
  have q4 : url.QueryEscape "agreed" = "agreed" := by decide
  have q5 : url.QueryEscape "domain" = "domain" := by decide
  have q6 : url.QueryEscape "sessionid" = "sessionid" := by decide
  simp only [url.Values.Encode, hs, List.flatMap_cons, List.flatMap_nil, List.map_cons,
    List.map_nil, List.append_nil, List.singleton_append, q1, q2, q3, q4, q5, q6]
  apply String.ext
  simp [String.intercalate, String.intercalate.go, String.data_append]

theorem registerRequest_body_contains (session : Session) (domain : String) :
    Contains (registerRequest session domain).Body "Submit=Register" ∧
    Contains (registerRequest session domain).Body "agreeToTerms=agreed" ∧
    Contains (registerRequest session domain).Body ("domain=" ++ url.QueryEscape domain) ∧
    Contains (registerRequest session domain).Body
      ("sessionid=" ++ url.QueryEscape session.sessionID) := by
  have hb : (registerRequest session domain).Body.data
      = "Submit=Register".data ++ ("&".data ++ ("agreeToTerms=agreed".data ++ ("&".data
        ++ (("domain=" ++ url.QueryEscape domain).data ++ ("&".data
        ++ ("sessionid=" ++ url.QueryEscape session.sessionID).data))))) := by
    simp only [registerRequest, registerValues_Encode, String.data_append]
    simp
  refine ⟨⟨[], ?_⟩, ⟨"Submit=Register&".data, ?_⟩,
    ⟨"Submit=Register&agreeToTerms=agreed&".data, "&".data
      ++ ("sessionid=" ++ url.QueryEscape session.sessionID).data, ?_⟩,
    ⟨"Submit=Register&agreeToTerms=agreed&".data ++ ("domain=" ++ url.QueryEscape domain).data
      ++ "&".data, [], ?_⟩⟩
  · exact ⟨_, by rw [hb]; rfl⟩
  · exact ⟨_, by rw [hb]; rfl⟩
  · rw [hb]; simp
  · rw [hb]; simp

/-! ## Further facts on `GetWebAPIKey` -/

/-- The submatch list of the key pattern is empty or holds the whole match
and the token. -/
theorem findStringSubmatch_key_shape (body : String) :
    (¬ HasKeyFragment body ∧ keyRegExp.FindStringSubmatch body = []) ∨
    (∃ h, LeftmostKeyFragment body h ∧
      keyRegExp.FindStringSubmatch body = [String.mk (keyFragment h.data), h]) := by
  by_cases hk : HasKeyFragment body
  · obtain ⟨h, hl⟩ := hasKeyFragment_leftmost body hk
    exact Or.inr ⟨h, hl, findStringSubmatch_key_leftmost body h hl⟩
  · exact Or.inl ⟨hk, findStringSubmatch_key_none body hk⟩

/-- A body without a match of the key pattern has only fragments
`<p>Key: X</p>` whose `X` is empty or has a character outside `0-9A-F`. -/
theorem only_bad_fragments_of_search_none (body : String)
    (hs : search keyRegExp.prog body.data 0 = none) :
    ∀ pre x post : List Char,
      body.data = pre ++ "<p>Key: ".data ++ x ++ "</p>".data ++ post →
      x = [] ∨ ∃ c ∈ x, isUpperHex c = false := by
  intro pre x post hb
  by_contra hcon
  rw [not_or] at hcon
  obtain ⟨hne, hall⟩ := hcon
  refine (search_key_none_iff body).1 hs ⟨pre.length, String.mk x, ⟨hne, ?_⟩, pre, post, rfl, ?_⟩
  · intro c hc
    by_contra hfalse
    exact hall ⟨c, hc, by simpa using hfalse⟩
  · rw [hb]; simp [keyFragment, List.append_assoc]

theorem not_hasKeyFragment_of_only_bad (body : String)
    (honly : ∀ pre x post : List Char,
      body.data = pre ++ "<p>Key: ".data ++ x ++ "</p>".data ++ post →
      x = [] ∨ ∃ c ∈ x, isUpperHex c = false) :
    ¬ HasKeyFragment body := by
  rintro ⟨n, h, ⟨hne, hhex⟩, pre, post, -, hb⟩
  rcases honly pre h.data post (by rw [hb]; simp [keyFragment, List.append_assoc]) with
    he | ⟨c, hc, hbad⟩
  · exact hne he
  · rw [hhex c hc] at hbad; cases hbad

/-- The result of `GetWebAPIKey` when the response is returned without
error, as a function of the response body alone. -/
theorem GetWebAPIKey_of_body (s1 s2 : Session) (st1 st2 : Int) (body : http.Body)
    (h1 : s1.client.Get apiKeyURL = .ok ⟨st1, body⟩)
    (h2 : s2.client.Get apiKeyURL = .ok ⟨st2, body⟩) :
    (GetWebAPIKey s1).1 = (GetWebAPIKey s2).1 ∧
    ((GetWebAPIKey s1).1.2 = none →
      (GetWebAPIKey s1).2 = { s1 with apiKey := (GetWebAPIKey s1).1.1 } ∧
      (GetWebAPIKey s2).2 = { s2 with apiKey := (GetWebAPIKey s1).1.1 }) ∧
    ((GetWebAPIKey s1).1.2 ≠ none → (GetWebAPIKey s1).2 = s1 ∧ (GetWebAPIKey s2).2 = s2) := by
  obtain ⟨data, err⟩ := body
  cases err with
  | some e =>
    have e1 : GetWebAPIKey s1 = (("", some e), s1) := by simp [GetWebAPIKey, h1, ioutil.ReadAll]
    have e2 : GetWebAPIKey s2 = (("", some e), s2) := by simp [GetWebAPIKey, h2, ioutil.ReadAll]
    simp [e1, e2]
  | none =>
    by_cases hden : Contains data accessDeniedPattern
    · rw [GetWebAPIKey_denied s1 _ data h1 rfl hden, GetWebAPIKey_denied s2 _ data h2 rfl hden]
      simp
    · by_cases hk : HasKeyFragment data
      · obtain ⟨h, hl⟩ := hasKeyFragment_leftmost data hk
        rw [GetWebAPIKey_found s1 _ data h h1 rfl hden hl,
          GetWebAPIKey_found s2 _ data h h2 rfl hden hl]
        simp
      · rw [GetWebAPIKey_notFound s1 _ data h1 rfl hden hk,
          GetWebAPIKey_notFound s2 _ data h2 rfl hden hk]
        simp

/-! ## Form decoding -/

theorem char_toNat_valid (c : Char) :
    c.toNat < 55296 ∨ (57343 < c.toNat ∧ c.toNat < 1114112) := c.valid

theorem utf8Bytes_lt (c : Char) : ∀ b ∈ url.utf8Bytes c, b < 256 := by
  have hv := char_toNat_valid c
  intro b hb
  simp only [url.utf8Bytes] at hb
  split at hb
  · simp at hb; omega
  · split at hb
    · simp at hb; omega
    · split at hb
      · simp at hb; omega
      · simp at hb; omega

theorem utf8DecodeFrom_two (b0 b1 n : Nat) (tail : List Nat)
    (h0 : 192 ≤ b0) (h0' : b0 < 224) (h1 : 128 ≤ b1) (h1' : b1 < 192)
    (hn : (b0 - 192) * 64 + (b1 - 128) = n) (hn' : 128 ≤ n) :
    url.utf8DecodeFrom 0 (b0 :: b1 :: tail) = Char.ofNat n :: url.utf8DecodeFrom 0 tail := by
  have c1 : ¬ b0 < 128 := by omega
  simp [url.utf8DecodeFrom, url.decodeRune, url.isCont, c1, h0, h0', h1, h1', hn, hn']

theorem utf8DecodeFrom_three (b0 b1 b2 n : Nat) (tail : List Nat)
    (h0 : 224 ≤ b0) (h0' : b0 < 240) (h1 : 128 ≤ b1) (h1' : b1 < 192)
    (h2 : 128 ≤ b2) (h2' : b2 < 192)
    (hn : (b0 - 224) * 4096 + (b1 - 128) * 64 + (b2 - 128) = n) (hn' : 2048 ≤ n)
    (hs : n < 55296 ∨ 57343 < n) :
    url.utf8DecodeFrom 0 (b0 :: b1 :: b2 :: tail)
      = Char.ofNat n :: url.utf8DecodeFrom 0 tail := by
  have c1 : ¬ b0 < 128 := by omega
  have c2 : ¬ b0 < 224 := by omega
  simp [url.utf8DecodeFrom, url.decodeRune, url.isCont, c1, c2, h0, h0', h1, h1', h2, h2',
    hn, hn', hs]

theorem utf8DecodeFrom_four (b0 b1 b2 b3 n : Nat) (tail : List Nat)
    (h0 : 240 ≤ b0) (h0' : b0 < 248) (h1 : 128 ≤ b1) (h1' : b1 < 192)
    (h2 : 128 ≤ b2) (h2' : b2 < 192) (h3 : 128 ≤ b3) (h3' : b3 < 192)
    (hn : (b0 - 240) * 262144 + (b1 - 128) * 4096 + (b2 - 128) * 64 + (b3 - 128) = n)
    (hn' : 65536 ≤ n) (hs : n < 1114112) :
    url.utf8DecodeFrom 0 (b0 :: b1 :: b2 :: b3 :: tail)
      = Char.ofNat n :: url.utf8DecodeFrom 0 tail := by
  have c1 : ¬ b0 < 128 := by omega
  have c2 : ¬ b0 < 224 := by omega
  have c3 : ¬ b0 < 240 := by omega
  simp [url.utf8DecodeFrom, url.decodeRune, url.isCont, c1, c2, c3, h0, h0', h1, h1', h2, h2',
    h3, h3', hn, hn', hs]

/-- Decoding the UTF-8 bytes of a character gives the character back. -/
theorem utf8DecodeFrom_utf8Bytes (c : Char) (tail : List Nat) :
    url.utf8DecodeFrom 0 (url.utf8Bytes c ++ tail) = c :: url.utf8DecodeFrom 0 tail := by
  have hv := char_toNat_valid c
  simp only [url.utf8Bytes]
  split
  · next h1 =>
    simp [url.utf8DecodeFrom, url.decodeRune, h1]
  · next h1 =>
    split
    · next h2 =>
      have := utf8DecodeFrom_two (192 + c.toNat / 64) (128 + c.toNat % 64) c.toNat tail
        (by omega) (by omega) (by omega) (by omega) (by omega) (by omega)
      rw [Char.ofNat_toNat] at this
      exact this
    · next h2 =>
      split
      · next h3 =>
        have := utf8DecodeFrom_three (224 + c.toNat / 4096) (128 + c.toNat / 64 % 64)
          (128 + c.toNat % 64) c.toNat tail
          (by omega) (by omega) (by omega) (by omega) (by omega) (by omega) (by omega)
          (by omega) (by omega)
        rw [Char.ofNat_toNat] at this
        exact this
      · next h3 =>
        have := utf8DecodeFrom_four (240 + c.toNat / 262144) (128 + c.toNat / 4096 % 64)
          (128 + c.toNat / 64 % 64) (128 + c.toNat % 64) c.toNat tail
          (by omega) (by omega) (by omega) (by omega) (by omega) (by omega) (by omega)
          (by omega) (by omega) (by omega) (by omega)
        rw [Char.ofNat_toNat] at this
        exact this

theorem utf8Decode_flatMap (l : List Char) :
    url.utf8Decode (l.flatMap url.utf8Bytes) = l := by
  induction l with
  | nil => rfl
  | cons c cs ih =>
    simp only [url.utf8Decode] at ih ⊢
    rw [List.flatMap_cons, utf8DecodeFrom_utf8Bytes, ih]

set_option maxRecDepth 100000 in
/-- What `escapeByte` writes for each byte, and how `unescape` reads it. -/
theorem escapeByte_cases : ∀ b, b < 256 →
    b = 32 ∨
    (b ≠ 32 ∧ url.shouldEscape b = true ∧
      (url.ishex (url.upperhex (b / 16)) && url.ishex (url.upperhex (b % 16))) = true ∧
      url.unhex (url.upperhex (b / 16)) * 16 + url.unhex (url.upperhex (b % 16)) = b) ∨
    (b ≠ 32 ∧ url.shouldEscape b = false ∧ Char.ofNat b ≠ '%' ∧ Char.ofNat b ≠ '+' ∧
      url.utf8Bytes (Char.ofNat b) = [b]) := by
  decide

set_option maxRecDepth 100000 in
/-- The characters that `escapeByte` writes are never `&`, `=` or `;`. -/
theorem escapeByte_chars : ∀ b, b < 256 →
    ∀ c ∈ url.escapeByte b, c ≠ '&' ∧ c ≠ '=' ∧ c ≠ ';' := by
  decide

theorem unescape_escapeByte (b : Nat) (hb : b < 256) (tail : List Char) (bs : List Nat)
    (ht : url.unescape tail = .ok bs) :
    url.unescape (url.escapeByte b ++ tail) = .ok (b :: bs) := by
  simp only [url.unescape] at ht ⊢
  rcases escapeByte_cases b hb with h | ⟨h32, hesc, hhex, hval⟩ | ⟨h32, hesc, hp, hpl, hu⟩
  · subst h
    have : url.escapeByte 32 = ['+'] := rfl
    rw [this]
    have hne : ('+' : Char) ≠ '%' := by decide
    simp [url.unescapeFrom, hne, ht]
  · have : url.escapeByte b = ['%', url.upperhex (b / 16), url.upperhex (b % 16)] := by
      simp [url.escapeByte, h32, hesc]
    rw [this]
    show url.unescapeFrom 0
      ('%' :: url.upperhex (b / 16) :: url.upperhex (b % 16) :: tail) = _
    simp only [url.unescapeFrom, url.hexPair, if_true, hhex, ht, hval]
  · have : url.escapeByte b = [Char.ofNat b] := by
      simp [url.escapeByte, h32, hesc]
    rw [this]
    simp [url.unescapeFrom, hp, hpl, hu, ht]

theorem unescape_flatMap (bs : List Nat) (h : ∀ b ∈ bs, b < 256) :
    url.unescape (bs.flatMap url.escapeByte) = .ok bs := by
  induction bs with
  | nil => rfl
  | cons b rest ih =>
    rw [List.flatMap_cons]
    exact unescape_escapeByte b (h b (List.mem_cons_self _ _)) _ rest
      (ih fun x hx => h x (List.mem_cons_of_mem _ hx))

theorem QueryEscape_data (s : String) :
    (url.QueryEscape s).data = (s.data.flatMap url.utf8Bytes).flatMap url.escapeByte := by
  simp only [url.QueryEscape, List.flatMap_assoc]

/-- Unescaping an escaped text gives the text back. -/
theorem QueryUnescape_QueryEscape (s : String) :
    url.QueryUnescape (url.QueryEscape s) = .ok s := by
  have hb : ∀ b ∈ s.data.flatMap url.utf8Bytes, b < 256 := by
    intro b hb
    obtain ⟨c, -, hc⟩ := List.mem_flatMap.1 hb
    exact utf8Bytes_lt c b hc
  simp only [url.QueryUnescape, QueryEscape_data, unescape_flatMap _ hb, utf8Decode_flatMap]

theorem QueryEscape_chars (s : String) :
    ∀ c ∈ (url.QueryEscape s).data, c ≠ '&' ∧ c ≠ '=' ∧ c ≠ ';' := by
  intro c hc
  rw [QueryEscape_data] at hc
  obtain ⟨b, hb, hcb⟩ := List.mem_flatMap.1 hc
  obtain ⟨x, -, hx⟩ := List.mem_flatMap.1 hb
  exact escapeByte_chars b (utf8Bytes_lt x b hx) c hcb

theorem splitOn_no_sep (sep : Char) (l : List Char) (h : sep ∉ l) :
    url.splitOn sep l = [l] := by
  induction l with
  | nil => rfl
  | cons c cs ih =>
    have hc : c ≠ sep := fun e => h (e ▸ List.mem_cons_self _ _)
    have ht : sep ∉ cs := fun e => h (List.mem_cons_of_mem _ e)
    simp [url.splitOn, hc, ih ht]

theorem splitOn_append (sep : Char) (a b : List Char) (h : sep ∉ a) :
    url.splitOn sep (a ++ sep :: b) = a :: url.splitOn sep b := by
  induction a with
  | nil => simp [url.splitOn]
  | cons c cs ih =>
    have hc : c ≠ sep := fun e => h (e ▸ List.mem_cons_self _ _)
    have ht : sep ∉ cs := fun e => h (List.mem_cons_of_mem _ e)
    simp [url.splitOn, hc, ih ht]

theorem cut_append (sep : Char) (a b : List Char) (h : sep ∉ a) :
    url.cut sep (a ++ sep :: b) = (a, b) := by
  induction a with
  | nil => simp [url.cut]
  | cons c cs ih =>
    have hc : c ≠ sep := fun e => h (e ▸ List.mem_cons_self _ _)
    have ht : sep ∉ cs := fun e => h (List.mem_cons_of_mem _ e)
    simp [url.cut, hc, ih ht]

theorem fieldSeg_chars (key value : String) :
    '&' ∉ fieldSeg key value ∧ ';' ∉ fieldSeg key value := by
  have hk := QueryEscape_chars key
  have hv := QueryEscape_chars value
  constructor
  · intro h
    rcases List.mem_append.1 h with h | h
    · exact (hk _ h).1 rfl
    · rcases List.mem_cons.1 h with h | h
      · revert h; decide
      · exact (hv _ h).1 rfl
  · intro h
    rcases List.mem_append.1 h with h | h
    · exact (hk _ h).2.2 rfl
    · rcases List.mem_cons.1 h with h | h
      · revert h; decide
      · exact (hv _ h).2.2 rfl

/-- The loop of `parseQuery` reads an encoded field back as the field. -/
theorem parseStep_fieldSeg (st : url.Values × Option Error) (key value : String) :
    url.parseStep st (fieldSeg key value) = (url.addValue st.1 key value, st.2) := by
  have hsemi : (fieldSeg key value).contains ';' = false := by
    cases h : (fieldSeg key value).contains ';' with
    | false => rfl
    | true => exact absurd (by simpa using h) (fieldSeg_chars key value).2
  have hne : fieldSeg key value ≠ [] := by simp [fieldSeg]
  have hcut : url.cut '=' (fieldSeg key value)
      = ((url.QueryEscape key).data, (url.QueryEscape value).data) :=
    cut_append '=' _ _ (fun h => (QueryEscape_chars key _ h).2.1 rfl)
  have e1 : (⟨(url.QueryEscape key).data⟩ : String) = url.QueryEscape key := rfl
  have e2 : (⟨(url.QueryEscape value).data⟩ : String) = url.QueryEscape value := rfl
  simp only [url.parseStep, hsemi, hne, hcut, if_false, Bool.false_eq_true, e1, e2,
    QueryUnescape_QueryEscape]

theorem revokeRequest_body (session : Session) :
    (revokeRequest session).Body.data
      = fieldSeg "revoke" "Revoke My Steam Web API Key"
        ++ '&' :: fieldSeg "sessionid" session.sessionID := by
  have hs : url.sortByKey (revokeValues session)
      = [("revoke", ["Revoke My Steam Web API Key"]), ("sessionid", [session.sessionID])] := rfl
  simp only [revokeRequest, url.Values.Encode, hs, List.flatMap_cons, List.flatMap_nil,
    List.map_cons, List.map_nil, List.append_nil, List.singleton_append, fieldSeg]
  simp [String.intercalate, String.intercalate.go, String.data_append]

theorem registerRequest_body (session : Session) (domain : String) :
    (registerRequest session domain).Body.data
      = fieldSeg "Submit" "Register" ++ '&' :: (fieldSeg "agreeToTerms" "agreed"
        ++ '&' :: (fieldSeg "domain" domain ++ '&' :: fieldSeg "sessionid" session.sessionID)) := by
  have hs : url.sortByKey (registerValues session domain)
      = [("Submit", ["Register"]), ("agreeToTerms", ["agreed"]), ("domain", [domain]),
         ("sessionid", [session.sessionID])] := rfl
  simp only [registerRequest, url.Values.Encode, hs, List.flatMap_cons, List.flatMap_nil,
    List.map_cons, List.map_nil, List.append_nil, List.singleton_append, fieldSeg]
  simp [String.intercalate, String.intercalate.go, String.data_append]

theorem ParseQuery_revokeRequest (session : Session) :
    url.ParseQuery (revokeRequest session).Body
      = ([("revoke", ["Revoke My Steam Web API Key"]), ("sessionid", [session.sessionID])],
          none) := by
  simp only [url.ParseQuery, revokeRequest_body]
  rw [splitOn_append _ _ _ (fieldSeg_chars _ _).1, splitOn_no_sep _ _ (fieldSeg_chars _ _).1]
  simp only [List.foldl_cons, List.foldl_nil, parseStep_fieldSeg]
  rfl

theorem ParseQuery_registerRequest (session : Session) (domain : String) :
    url.ParseQuery (registerRequest session domain).Body
      = ([("Submit", ["Register"]), ("agreeToTerms", ["agreed"]), ("domain", [domain]),
          ("sessionid", [session.sessionID])], none) := by
  simp only [url.ParseQuery, registerRequest_body]
  rw [splitOn_append _ _ _ (fieldSeg_chars _ _).1, splitOn_append _ _ _ (fieldSeg_chars _ _).1,
    splitOn_append _ _ _ (fieldSeg_chars _ _).1, splitOn_no_sep _ _ (fieldSeg_chars _ _).1]
  simp only [List.foldl_cons, List.foldl_nil, parseStep_fieldSeg]
  rfl

/-! ## Where the raw text `domain=<domain>` can occur -/

/-- Two ways of writing a text around a separator: either the same split, or
the second split is further right. -/
theorem split_at_sep (sep : Char) (x y u v : List Char) (hx : sep ∉ x)
    (h : x ++ sep :: y = u ++ sep :: v) :
    (u = x ∧ v = y) ∨ ∃ w, u = x ++ sep :: w ∧ y = w ++ sep :: v := by
  induction x generalizing u with
  | nil =>
    cases u with
    | nil => simp at h; exact Or.inl ⟨rfl, h.symm⟩
    | cons c u' =>
      simp only [List.nil_append, List.cons_append, List.cons.injEq] at h
      exact Or.inr ⟨u', by simp [h.1], h.2⟩
  | cons a x' ih =>
    cases u with
    | nil =>
      simp only [List.nil_append, List.cons_append, List.cons.injEq] at h
      exact absurd (h.1 ▸ List.mem_cons_self _ _) hx
    | cons c u' =>
      simp only [List.cons_append, List.cons.injEq] at h
      rcases ih u' (fun e => hx (List.mem_cons_of_mem _ e)) h.2 with ⟨h1, h2⟩ | ⟨w, h1, h2⟩
      · exact Or.inl ⟨by rw [h.1, h1], h2⟩
      · exact Or.inr ⟨w, by rw [h.1, h1]; rfl, h2⟩

theorem escape_unreserved_list (l : List Char) (h : ∀ c ∈ l, isUnreserved c = true) :
    (l.flatMap fun c => (url.utf8Bytes c).flatMap url.escapeByte) = l := by
  induction l with
  | nil => rfl
  | cons c cs ih =>
    rw [List.flatMap_cons, escape_unreserved c (h c (List.mem_cons_self _ _)),
      ih (fun x hx => h x (List.mem_cons_of_mem _ hx))]
    rfl

set_option maxRecDepth 100000 in
theorem ascii_escaped : ∀ b, b < 128 → isUnreserved (Char.ofNat b) = false →
    b = 32 ∨ url.shouldEscape b = true := by
  decide

/-- The escape of a character that is not unreserved starts with `+` (for a
space) or with `%`. -/
theorem escape_head (c : Char) (h : isUnreserved c = false) :
    ∃ e rest, (url.utf8Bytes c).flatMap url.escapeByte = e :: rest ∧
      ((e = '+' ∧ c = ' ') ∨ e = '%') := by
  have hv := char_toNat_valid c
  have big : ∀ b : Nat, 192 ≤ b → ∀ t : List Nat,
      ∃ e rest, (b :: t).flatMap url.escapeByte = e :: rest ∧
        ((e = '+' ∧ c = ' ') ∨ e = '%') := by
    intro b hb t
    have h32 : b ≠ 32 := by omega
    have hs : url.shouldEscape b = true := by
      simp only [url.shouldEscape]
      rw [if_neg (by omega), if_neg (by omega)]
    exact ⟨'%', url.upperhex (b / 16) :: url.upperhex (b % 16) :: t.flatMap url.escapeByte,
      by simp [url.escapeByte, h32, hs], Or.inr rfl⟩
  simp only [url.utf8Bytes]
  split
  · next h1 =>
    have hc : isUnreserved (Char.ofNat c.toNat) = false := by rw [Char.ofNat_toNat]; exact h
    rcases ascii_escaped c.toNat h1 hc with h32 | hs
    · refine ⟨'+', [], by simp [url.escapeByte, h32], Or.inl ⟨rfl, ?_⟩⟩
      rw [← Char.ofNat_toNat c, h32]
    · by_cases h32 : c.toNat = 32
      · refine ⟨'+', [], by simp [url.escapeByte, h32], Or.inl ⟨rfl, ?_⟩⟩
        rw [← Char.ofNat_toNat c, h32]
      · exact ⟨'%', [url.upperhex (c.toNat / 16), url.upperhex (c.toNat % 16)],
          by simp [url.escapeByte, h32, hs], Or.inr rfl⟩
  · split
    · exact big _ (by omega) _
    · split
      · exact big _ (by omega) _
      · exact big _ (by omega) _

theorem append_suffix_ne (p q a b : List Char) (hl : a.length = b.length) (hne : a ≠ b)
    (h : p ++ a = q ++ b) : False :=
  hne (List.append_inj' h hl).2

/-- The raw text `domain=<domain>` is absent from the registration body when
the first character of the domain that is escaped is not `%`. -/
theorem registerRequest_body_no_raw_domain (session : Session) (domain : String)
    (u : List Char) (c : Char) (r : List Char)
    (hd : domain.data = u ++ c :: r)
    (hu : ∀ x ∈ u, isUnreserved x = true)
    (hc : isUnreserved c = false) (hp : c ≠ '%') :
    ¬ Contains (registerRequest session domain).Body ("domain=" ++ domain) := by
  rintro ⟨pre, post, hb⟩
  have qd := QueryEscape_chars domain
  have qs := QueryEscape_chars session.sessionID
  -- the body, cut at its four `=`
  have hbody : (registerRequest session domain).Body.data
      = "Submit".data ++ '=' :: ("Register&agreeToTerms".data ++ '=' :: ("agreed&domain".data
        ++ '=' :: (((url.QueryEscape domain).data ++ "&sessionid".data)
        ++ '=' :: (url.QueryEscape session.sessionID).data))) := by
    rw [registerRequest_body]
    have q1 : (url.QueryEscape "Submit").data = "Submit".data := by decide
    have q2 : (url.QueryEscape "Register").data = "Register".data := by decide
    have q3 : (url.QueryEscape "agreeToTerms").data = "agreeToTerms".data := by decide
    have q4 : (url.QueryEscape "agreed").data = "agreed".data := by decide
    have q5 : (url.QueryEscape "domain").data = "domain".data := by decide
    have q6 : (url.QueryEscape "sessionid").data = "sessionid".data := by decide
    simp only [fieldSeg, q1, q2, q3, q4, q5, q6]
    simp
  have hm : pre ++ ("domain=" ++ domain).data ++ post
      = (pre ++ "domain".data) ++ '=' :: (domain.data ++ post) := by
    simp [String.data_append]
  rw [hm, hbody] at hb
  have n1 : '=' ∉ "Submit".data := by decide
  have n2 : '=' ∉ "Register&agreeToTerms".data := by decide
  have n3 : '=' ∉ "agreed&domain".data := by decide
  have n4 : '=' ∉ (url.QueryEscape domain).data ++ "&sessionid".data := by
    intro h
    rcases List.mem_append.1 h with h | h
    · exact (qd _ h).2.1 rfl
    · revert h; decide
  have n5 : '=' ∉ (url.QueryEscape session.sessionID).data := fun h => (qs _ h).2.1 rfl
  rcases split_at_sep '=' _ _ _ _ n1 hb.symm with ⟨h1, -⟩ | ⟨w1, h1, hb1⟩
  · exact append_suffix_ne pre [] "domain".data "Submit".data rfl (by decide) h1
  rcases split_at_sep '=' _ _ _ _ n2 hb1 with ⟨h2, -⟩ | ⟨w2, h2, hb2⟩
  · rw [h2] at h1
    exact append_suffix_ne pre "Submit=Register&agreeT".data "domain".data "oTerms".data rfl
      (by decide) (h1.trans (by decide))
  rcases split_at_sep '=' _ _ _ _ n3 hb2 with ⟨h3, hrest⟩ | ⟨w3, h3, hb3⟩
  · -- the occurrence is the `domain` field itself
    have hq : (url.QueryEscape domain).data
        = u ++ ((url.utf8Bytes c).flatMap url.escapeByte
          ++ (r.flatMap fun c => (url.utf8Bytes c).flatMap url.escapeByte)) := by
      simp only [url.QueryEscape, hd, List.flatMap_append, List.flatMap_cons,
        escape_unreserved_list u hu]
    obtain ⟨e, rest, he, hcase⟩ := escape_head c hc
    rw [hq, he, hd] at hrest
    simp only [List.append_assoc, List.cons_append] at hrest
    have := List.append_cancel_left hrest
    simp only [List.cons.injEq] at this
    rcases hcase with ⟨h1', h2'⟩ | h1'
    · rw [h1', h2'] at this
      exact absurd this.1 (by decide)
    · rw [h1'] at this
      exact hp this.1
  rcases split_at_sep '=' _ _ _ _ n4 hb3 with ⟨h4, -⟩ | ⟨w4, -, hb4⟩
  · rw [h4] at h3
    rw [h3] at h2
    rw [h2] at h1
    refine append_suffix_ne pre ("Submit".data ++ '=' :: ("Register&agreeToTerms".data
      ++ '=' :: ("agreed&domain".data ++ '=' :: ((url.QueryEscape domain).data
      ++ "&ses".data)))) "domain".data "sionid".data rfl (by decide) (h1.trans ?_)
    simp
  · exact n5 (hb4 ▸ List.mem_append_right _ (List.mem_cons_self _ _))

/-! ## The claims -/

/-- C1: when the transport returns, without error, a body that contains
`<h2>Access Denied</h2>`, `GetWebAPIKey` returns the empty string with
`ErrAccessDenied` and leaves the session (its `apiKey` in particular)
unchanged, whatever else the body contains, a key fragment included. -/
theorem C1_access_denied_wins (session : Session) (status : Int) (body : String)
    (hget : session.client.Get apiKeyURL = .ok ⟨status, ⟨body, none⟩⟩)
    (hden : Contains body "<h2>Access Denied</h2>") :
    (GetWebAPIKey session).1 = ("", some .ErrAccessDenied) ∧
      (GetWebAPIKey session).2.apiKey = session.apiKey := by
  rw [GetWebAPIKey_denied session _ body hget rfl hden]
  exact ⟨rfl, rfl⟩

/-- Witness of C1: a denied page that also carries `<p>Key: 1A2B3C4D</p>`. -/
theorem C1_access_denied_wins_witness :
    Contains "<p>Key: 1A2B3C4D</p><h2>Access Denied</h2>" "<p>Key: 1A2B3C4D</p>" ∧
    (GetWebAPIKey ⟨stubClient (.ok ⟨200,
        ⟨"<p>Key: 1A2B3C4D</p><h2>Access Denied</h2>", none⟩⟩), "sid", "0LD"⟩).1
      = ("", some .ErrAccessDenied) ∧
    (GetWebAPIKey ⟨stubClient (.ok ⟨200,
        ⟨"<p>Key: 1A2B3C4D</p><h2>Access Denied</h2>", none⟩⟩), "sid", "0LD"⟩).2.apiKey
      = "0LD" :=
  ⟨by decide, C1_access_denied_wins _ 200 _ rfl (by decide)⟩

/-- C2: when the transport returns, without error, a body without the denial
marker whose leftmost fragment `<p>Key: [0-9A-F]+</p>` is `<p>Key: H</p>`,
`GetWebAPIKey` returns `(H, nil)` and the session's `apiKey` is `H`
afterwards. -/
theorem C2_key_extracted (session : Session) (status : Int) (body h : String)
    (hget : session.client.Get apiKeyURL = .ok ⟨status, ⟨body, none⟩⟩)
    (hden : ¬ Contains body "<h2>Access Denied</h2>")
    (hl : LeftmostKeyFragment body h) :
    (GetWebAPIKey session).1 = (h, none) ∧ (GetWebAPIKey session).2.apiKey = h := by
  rw [GetWebAPIKey_found session _ body h hget rfl hden hl]
  exact ⟨rfl, rfl⟩

/-- Witness of C2: the body `<p>Key: 1A2B3C4D</p>`. -/
theorem C2_key_extracted_witness :
    (GetWebAPIKey ⟨stubClient (.ok ⟨200, ⟨"<p>Key: 1A2B3C4D</p>", none⟩⟩), "sid", ""⟩).1
      = ("1A2B3C4D", none) ∧
    (GetWebAPIKey ⟨stubClient (.ok ⟨200, ⟨"<p>Key: 1A2B3C4D</p>", none⟩⟩), "sid", ""⟩).2.apiKey
      = "1A2B3C4D" :=
  C2_key_extracted _ 200 "<p>Key: 1A2B3C4D</p>" "1A2B3C4D" rfl (by decide)
    ⟨0, ⟨⟨by decide, by decide⟩, [], [], rfl, rfl⟩, fun m _ _ => Nat.zero_le m⟩

/-- C3: when the transport succeeds and the body is read, the error of
`GetWebAPIKey` is `ErrKeyNotFound` if and only if the body contains neither
`<h2>Access Denied</h2>` nor a fragment matching `<p>Key: ([0-9A-F]+)</p>`;
the key returned with it is the empty string. -/
theorem C3_key_not_found_iff (session : Session) (status : Int) (body : String)
    (hget : session.client.Get apiKeyURL = .ok ⟨status, ⟨body, none⟩⟩) :
    ((GetWebAPIKey session).1.2 = some .ErrKeyNotFound ↔
        ¬ Contains body "<h2>Access Denied</h2>" ∧ ¬ HasKeyFragment body) ∧
      ((GetWebAPIKey session).1.2 = some .ErrKeyNotFound → (GetWebAPIKey session).1.1 = "") := by
  by_cases hden : Contains body "<h2>Access Denied</h2>"
  · rw [GetWebAPIKey_denied session _ body hget rfl hden]
    simp [hden]
  · by_cases hk : HasKeyFragment body
    · obtain ⟨h, hl⟩ := hasKeyFragment_leftmost body hk
      rw [GetWebAPIKey_found session _ body h hget rfl hden hl]
      simp [hk]
    · rw [GetWebAPIKey_notFound session _ body hget rfl hden hk]
      simp [hden, hk]

/-- Witness of C3: a page with neither marker nor key. -/
theorem C3_key_not_found_iff_witness :
    (GetWebAPIKey ⟨stubClient (.ok ⟨200, ⟨"<html></html>", none⟩⟩), "sid", ""⟩).1
      = ("", some .ErrKeyNotFound) ∧
    ¬ Contains "<html></html>" "<h2>Access Denied</h2>" ∧ ¬ HasKeyFragment "<html></html>" :=
  ⟨by decide,
   (C3_key_not_found_iff ⟨stubClient (.ok ⟨200, ⟨"<html></html>", none⟩⟩), "sid", ""⟩
      200 "<html></html>" rfl).1.1 (by decide)⟩

/-- C4: when the transport answers the registration request with status `s`
and no error, `RegisterWebAPIKey` returns no error if `s = 200` and
`ErrCannotRegisterKey` otherwise, for every domain and whatever the response
body is. -/
theorem C4_register_status (session : Session) (domain : String) (resp : http.Response)
    (hdo : session.client.Do (registerRequest session domain) = .ok resp) :
    (RegisterWebAPIKey session domain).1
      = if resp.StatusCode = 200 then none else some .ErrCannotRegisterKey := by
  rw [RegisterWebAPIKey_eq, hdo]
  by_cases h : resp.StatusCode = 200 <;> simp [statusError, http.StatusOK, h]

/-- Witness of C4: statuses 200, 403 and 500. -/
theorem C4_register_status_witness :
    (RegisterWebAPIKey ⟨stubClient (.ok ⟨200, ⟨"body", none⟩⟩), "sid", ""⟩ "example.com").1
      = none ∧
    (RegisterWebAPIKey ⟨stubClient (.ok ⟨403, ⟨"body", none⟩⟩), "sid", ""⟩ "example.com").1
      = some .ErrCannotRegisterKey ∧
    (RegisterWebAPIKey ⟨stubClient (.ok ⟨500, ⟨"", some (.external "EOF")⟩⟩), "sid", ""⟩
        "example.com").1
      = some .ErrCannotRegisterKey :=
  ⟨C4_register_status _ "example.com" ⟨200, ⟨"body", none⟩⟩ rfl,
   C4_register_status _ "example.com" ⟨403, ⟨"body", none⟩⟩ rfl,
   C4_register_status _ "example.com" ⟨500, ⟨"", some (.external "EOF")⟩⟩ rfl⟩

/-- C5: when the transport answers the revocation request with status `s`
and no error, `RevokeWebAPIKey` returns no error if `s = 200` and
`ErrCannotRevokeKey` otherwise. -/
theorem C5_revoke_status (session : Session) (resp : http.Response)
    (hdo : session.client.Do (revokeRequest session) = .ok resp) :
    (RevokeWebAPIKey session).1
      = if resp.StatusCode = 200 then none else some .ErrCannotRevokeKey := by
  rw [RevokeWebAPIKey_eq, hdo]
  by_cases h : resp.StatusCode = 200 <;> simp [statusError, http.StatusOK, h]

/-- Witness of C5: statuses 200, 403 and 500. -/
theorem C5_revoke_status_witness :
    (RevokeWebAPIKey ⟨stubClient (.ok ⟨200, ⟨"body", none⟩⟩), "sid", "1A2B"⟩).1 = none ∧
    (RevokeWebAPIKey ⟨stubClient (.ok ⟨403, ⟨"body", none⟩⟩), "sid", "1A2B"⟩).1
      = some .ErrCannotRevokeKey ∧
    (RevokeWebAPIKey ⟨stubClient (.ok ⟨500, ⟨"body", none⟩⟩), "sid", "1A2B"⟩).1
      = some .ErrCannotRevokeKey :=
  ⟨C5_revoke_status _ ⟨200, ⟨"body", none⟩⟩ rfl,
   C5_revoke_status _ ⟨403, ⟨"body", none⟩⟩ rfl,
   C5_revoke_status _ ⟨500, ⟨"body", none⟩⟩ rfl⟩

/-- C6 (as amended): the request `RegisterWebAPIKey` hands to the transport
is a POST to the registration URL whose body contains `Submit=Register`,
`agreeToTerms=agreed`, `domain=Q(domain)` and `sessionid=Q(sessionID)`, with
`Q` the query escaping of `Values.Encode`; when the domain (the sessionID)
is made of unreserved characters only, the body contains `domain=<domain>`
(`sessionid=<sessionID>`) as it stands. -/
theorem C6_register_request_fields (session : Session) (domain : String) :
    (RegisterWebAPIKey session domain).1
      = statusError (session.client.Do (registerRequest session domain))
          .ErrCannotRegisterKey ∧
    (registerRequest session domain).Method = "POST" ∧
    (registerRequest session domain).URL = "https://steamcommunity.com/dev/registerkey" ∧
    Contains (registerRequest session domain).Body "Submit=Register" ∧
    Contains (registerRequest session domain).Body "agreeToTerms=agreed" ∧
    Contains (registerRequest session domain).Body ("domain=" ++ url.QueryEscape domain) ∧
    Contains (registerRequest session domain).Body
      ("sessionid=" ++ url.QueryEscape session.sessionID) ∧
    ((∀ c ∈ domain.data, isUnreserved c = true) →
      Contains (registerRequest session domain).Body ("domain=" ++ domain)) ∧
    ((∀ c ∈ session.sessionID.data, isUnreserved c = true) →
      Contains (registerRequest session domain).Body ("sessionid=" ++ session.sessionID)) := by
  obtain ⟨h1, h2, h3, h4⟩ := registerRequest_body_contains session domain
  refine ⟨?_, rfl, rfl, h1, h2, h3, h4, fun hd => ?_, fun hs => ?_⟩
  · rw [RegisterWebAPIKey_eq]
  · rw [QueryEscape_unreserved domain hd] at h3; exact h3
  · rw [QueryEscape_unreserved _ hs] at h4; exact h4

/-- Witness of C6 (as amended): domain `example.com`, sessionID
`0123456789abcdef01234567`. -/
theorem C6_register_request_fields_witness :
    Contains (registerRequest ⟨stubClient (.ok ⟨200, ⟨"", none⟩⟩),
        "0123456789abcdef01234567", ""⟩ "example.com").Body "domain=example.com" ∧
    Contains (registerRequest ⟨stubClient (.ok ⟨200, ⟨"", none⟩⟩),
        "0123456789abcdef01234567", ""⟩ "example.com").Body
      "sessionid=0123456789abcdef01234567" :=
  have h := C6_register_request_fields
    ⟨stubClient (.ok ⟨200, ⟨"", none⟩⟩), "0123456789abcdef01234567", ""⟩ "example.com"
  ⟨h.2.2.2.2.2.2.2.1 (by decide), h.2.2.2.2.2.2.2.2 (by decide)⟩

set_option maxRecDepth 100000 in
/-- C6 as stated fails: with the domain `example.com` and the sessionID
`k9+Zq/4=` the body sent is
`Submit=Register&agreeToTerms=agreed&domain=example.com&sessionid=k9%2BZq%2F4%3D`,
which does not contain `sessionid=k9+Zq/4=`. -/
theorem C6_counterexample :
    (registerRequest ⟨stubClient (.ok ⟨200, ⟨"", none⟩⟩), "k9+Zq/4=", ""⟩ "example.com").Body
      = "Submit=Register&agreeToTerms=agreed&domain=example.com&sessionid=k9%2BZq%2F4%3D" ∧
    Contains (registerRequest ⟨stubClient (.ok ⟨200, ⟨"", none⟩⟩), "k9+Zq/4=", ""⟩
      "example.com").Body "sessionid=k9+Zq/4=" = False := by
  refine ⟨by decide, ?_⟩
  simp only [eq_iff_iff, iff_false]
  decide

/-- C7: after `GetWebAPIKey`, for every prior session and every transport
outcome, the `apiKey` is the returned key when no error is returned and is
its prior value when an error is returned; the `sessionID` and the client
are unchanged in every case. -/
theorem C7_apiKey_written_only_on_success (session : Session) :
    ((GetWebAPIKey session).1.2 = none →
        (GetWebAPIKey session).2.apiKey = (GetWebAPIKey session).1.1) ∧
    ((GetWebAPIKey session).1.2 ≠ none →
        (GetWebAPIKey session).2.apiKey = session.apiKey) ∧
    (GetWebAPIKey session).2.sessionID = session.sessionID ∧
    (GetWebAPIKey session).2.client = session.client := by
  rcases GetWebAPIKey_cases session with ⟨r, e, -, h⟩ | ⟨resp, e, -, -, h⟩ |
    ⟨resp, -, -, -, h⟩ | ⟨resp, -, -, -, -, h⟩ | ⟨resp, k, -, -, -, -, h⟩ <;>
  simp [h]

/-- Witness of C7: a successful fetch overwrites the key, a failed one keeps
it. -/
theorem C7_apiKey_written_only_on_success_witness :
    (GetWebAPIKey ⟨stubClient (.ok ⟨200, ⟨"<p>Key: 1A2B3C4D</p>", none⟩⟩), "sid", "0LD"⟩).2.apiKey
      = "1A2B3C4D" ∧
    (GetWebAPIKey ⟨stubClient (.failed none (.external "timeout")), "sid", "0LD"⟩).2.apiKey
      = "0LD" :=
  ⟨((C7_apiKey_written_only_on_success
      ⟨stubClient (.ok ⟨200, ⟨"<p>Key: 1A2B3C4D</p>", none⟩⟩), "sid", "0LD"⟩).1
        (by decide)).trans (by decide),
   (C7_apiKey_written_only_on_success
      ⟨stubClient (.failed none (.external "timeout")), "sid", "0LD"⟩).2.1 (by decide)⟩

/-- C8: `RegisterWebAPIKey` and `RevokeWebAPIKey` return the session as they
found it, in every outcome: `apiKey`, `sessionID` and client are unchanged. -/
theorem C8_register_revoke_frame (session : Session) (domain : String) :
    (RegisterWebAPIKey session domain).2 = session ∧ (RevokeWebAPIKey session).2 = session := by
  rw [RegisterWebAPIKey_eq, RevokeWebAPIKey_eq]
  exact ⟨rfl, rfl⟩

/-- C9: an error of the transport is returned as it is by the three
operations, whether or not a response comes with it and whatever that
response holds. -/
theorem C9_transport_error_propagated (session : Session) (domain : String)
    (resp : Option http.Response) (e : Error) :
    (session.client.Do (registerRequest session domain) = .failed resp e →
        (RegisterWebAPIKey session domain).1 = some e) ∧
    (session.client.Do (revokeRequest session) = .failed resp e →
        (RevokeWebAPIKey session).1 = some e) ∧
    (session.client.Get apiKeyURL = .failed resp e →
        (GetWebAPIKey session).1 = ("", some e)) := by
  refine ⟨fun h => ?_, fun h => ?_, fun h => ?_⟩
  · rw [RegisterWebAPIKey_eq, h]; rfl
  · rw [RevokeWebAPIKey_eq, h]; rfl
  · simp [GetWebAPIKey, h]

/-- Witness of C9: an error that comes with a response of status 200 whose
body holds a key. -/
theorem C9_transport_error_propagated_witness :
    (RegisterWebAPIKey ⟨stubClient (.failed (some ⟨200, ⟨"<p>Key: 1A2B3C4D</p>", none⟩⟩)
        (.external "redirect refused")), "sid", ""⟩ "example.com").1
      = some (.external "redirect refused") ∧
    (RevokeWebAPIKey ⟨stubClient (.failed (some ⟨200, ⟨"<p>Key: 1A2B3C4D</p>", none⟩⟩)
        (.external "redirect refused")), "sid", ""⟩).1
      = some (.external "redirect refused") ∧
    (GetWebAPIKey ⟨stubClient (.failed (some ⟨200, ⟨"<p>Key: 1A2B3C4D</p>", none⟩⟩)
        (.external "redirect refused")), "sid", ""⟩).1
      = ("", some (.external "redirect refused")) :=
  have h := C9_transport_error_propagated
    ⟨stubClient (.failed (some ⟨200, ⟨"<p>Key: 1A2B3C4D</p>", none⟩⟩)
      (.external "redirect refused")), "sid", ""⟩ "example.com"
    (some ⟨200, ⟨"<p>Key: 1A2B3C4D</p>", none⟩⟩) (.external "redirect refused")
  ⟨h.1 rfl, h.2.1 rfl, h.2.2 rfl⟩

/-- C10: a key that `GetWebAPIKey` returns without error is a non-empty
string of the characters `0-9` and `A-F`, and it is the value stored in the
session's `apiKey`. -/
theorem C10_key_is_upper_hex (session : Session)
    (hok : (GetWebAPIKey session).1.2 = none) :
    IsKeyToken (GetWebAPIKey session).1.1 ∧ IsKeyToken (GetWebAPIKey session).2.apiKey := by
  rcases GetWebAPIKey_cases session with ⟨r, e, -, h⟩ | ⟨resp, e, -, -, h⟩ |
    ⟨resp, -, -, -, h⟩ | ⟨resp, -, -, -, -, h⟩ | ⟨resp, k, -, -, -, hl, h⟩
  · rw [h] at hok; cases hok
  · rw [h] at hok; cases hok
  · rw [h] at hok; cases hok
  · rw [h] at hok; cases hok
  · rw [h]
    obtain ⟨n, ⟨htok, -⟩, -⟩ := hl
    exact ⟨htok, htok⟩

/-- Witness of C10: the key read from `<p>Key: 1A2B3C4D</p>`. -/
theorem C10_key_is_upper_hex_witness :
    IsKeyToken
      (GetWebAPIKey ⟨stubClient (.ok ⟨200, ⟨"<p>Key: 1A2B3C4D</p>", none⟩⟩), "sid", ""⟩).1.1 ∧
    IsKeyToken
      (GetWebAPIKey ⟨stubClient (.ok ⟨200, ⟨"<p>Key: 1A2B3C4D</p>", none⟩⟩), "sid", ""⟩).2.apiKey :=
  C10_key_is_upper_hex _ (by decide)

/-- C11: the request `RevokeWebAPIKey` hands to the transport is a POST to
the revocation URL whose body is
`revoke=Revoke+My+Steam+Web+API+Key&sessionid=Q(sessionID)`; decoding it as
a URL-encoded form gives exactly the two fields
`revoke = "Revoke My Steam Web API Key"` and `sessionid = sessionID`, without
error, for every sessionID. -/
theorem C11_revoke_request_fields (session : Session) :
    (RevokeWebAPIKey session).1
      = statusError (session.client.Do (revokeRequest session)) .ErrCannotRevokeKey ∧
    (revokeRequest session).Method = "POST" ∧
    (revokeRequest session).URL = "https://steamcommunity.com/dev/revokekey" ∧
    (revokeRequest session).Body
      = "revoke=Revoke+My+Steam+Web+API+Key&sessionid=" ++ url.QueryEscape session.sessionID ∧
    url.ParseQuery (revokeRequest session).Body
      = ([("revoke", ["Revoke My Steam Web API Key"]), ("sessionid", [session.sessionID])],
          none) := by
  refine ⟨?_, rfl, rfl, ?_, ParseQuery_revokeRequest session⟩
  · rw [RevokeWebAPIKey_eq]
  · apply String.ext
    rw [revokeRequest_body]
    have q1 : (url.QueryEscape "revoke").data = "revoke".data := by decide
    have q2 : (url.QueryEscape "Revoke My Steam Web API Key").data
        = "Revoke+My+Steam+Web+API+Key".data := by decide
    have q3 : (url.QueryEscape "sessionid").data = "sessionid".data := by decide
    simp only [fieldSeg, q1, q2, q3, String.data_append]
    simp

/-- C12: calling `GetWebAPIKey` a second time against the same transport
answer returns the same key and the same error as the first call, and leaves
the session as the first call left it. -/
theorem C12_get_idempotent (session : Session) :
    (GetWebAPIKey (GetWebAPIKey session).2).1 = (GetWebAPIKey session).1 ∧
    (GetWebAPIKey (GetWebAPIKey session).2).2 = (GetWebAPIKey session).2 := by
  cases hget : session.client.Get apiKeyURL with
  | failed r e =>
    have e1 : GetWebAPIKey session = (("", some e), session) := by simp [GetWebAPIKey, hget]
    rw [e1]
    exact ⟨congrArg Prod.fst e1, congrArg Prod.snd e1⟩
  | ok resp =>
    obtain ⟨st, body⟩ := resp
    have h0 := GetWebAPIKey_of_body session session st st body hget hget
    by_cases hn : (GetWebAPIKey session).1.2 = none
    · have hs := (h0.2.1 hn).1
      have hget' : (GetWebAPIKey session).2.client.Get apiKeyURL = .ok ⟨st, body⟩ := by
        rw [hs]; exact hget
      have h := GetWebAPIKey_of_body (GetWebAPIKey session).2 session st st body hget' hget
      refine ⟨h.1, ?_⟩
      have hn' : (GetWebAPIKey (GetWebAPIKey session).2).1.2 = none := by rw [h.1]; exact hn
      rw [(h.2.1 hn').1, h.1]
      conv_rhs => rw [hs]
      conv_lhs => rw [hs]
    · have hs := (h0.2.2 hn).1
      rw [hs]
      exact ⟨rfl, hs⟩

/-- C13: two responses with the same body and any two status codes give the
same key, the same error and the same resulting `apiKey`. -/
theorem C13_status_agnostic (s1 s2 : Session) (st1 st2 : Int) (body : http.Body)
    (h1 : s1.client.Get apiKeyURL = .ok ⟨st1, body⟩)
    (h2 : s2.client.Get apiKeyURL = .ok ⟨st2, body⟩)
    (hk : s1.apiKey = s2.apiKey) :
    (GetWebAPIKey s1).1 = (GetWebAPIKey s2).1 ∧
    (GetWebAPIKey s1).2.apiKey = (GetWebAPIKey s2).2.apiKey := by
  have h := GetWebAPIKey_of_body s1 s2 st1 st2 body h1 h2
  refine ⟨h.1, ?_⟩
  by_cases hn : (GetWebAPIKey s1).1.2 = none
  · rw [(h.2.1 hn).1, (h.2.1 hn).2]
  · rw [(h.2.2 hn).1, (h.2.2 hn).2, hk]

/-- Witness of C13: the key page served with status 200 and with status 500,
and the denial page served with status 200 and with status 403. -/
theorem C13_status_agnostic_witness :
    (GetWebAPIKey ⟨stubClient (.ok ⟨500, ⟨"<p>Key: 1A2B3C4D</p>", none⟩⟩), "sid", ""⟩).1
      = ("1A2B3C4D", none) ∧
    (GetWebAPIKey ⟨stubClient (.ok ⟨500, ⟨"<p>Key: 1A2B3C4D</p>", none⟩⟩), "sid", ""⟩).2.apiKey
      = "1A2B3C4D" ∧
    (GetWebAPIKey ⟨stubClient (.ok ⟨403, ⟨"<h2>Access Denied</h2>", none⟩⟩), "sid", ""⟩).1
      = ("", some .ErrAccessDenied) :=
  have a := C13_status_agnostic
    ⟨stubClient (.ok ⟨500, ⟨"<p>Key: 1A2B3C4D</p>", none⟩⟩), "sid", ""⟩
    ⟨stubClient (.ok ⟨200, ⟨"<p>Key: 1A2B3C4D</p>", none⟩⟩), "sid", ""⟩
    500 200 ⟨"<p>Key: 1A2B3C4D</p>", none⟩ rfl rfl rfl
  have b := C13_status_agnostic
    ⟨stubClient (.ok ⟨403, ⟨"<h2>Access Denied</h2>", none⟩⟩), "sid", ""⟩
    ⟨stubClient (.ok ⟨200, ⟨"<h2>Access Denied</h2>", none⟩⟩), "sid", ""⟩
    403 200 ⟨"<h2>Access Denied</h2>", none⟩ rfl rfl rfl
  ⟨a.1.trans (by decide), a.2.trans (by decide), b.1.trans (by decide)⟩

/-- C14: the denial check cannot fail and is literal containment: the
pattern has no character that the pattern language treats specially, for
every body `regexp.Match` returns no error and reports true exactly when the
body contains `<h2>Access Denied</h2>`, and a body read without error that
does not contain this exact text is not answered with `ErrAccessDenied`. -/
theorem C14_denial_check_literal (body : String) :
    (∀ c ∈ accessDeniedPattern.data, isMetaChar c = false) ∧
    regexp.Compile accessDeniedPattern = .ok ⟨litProg "<h2>Access Denied</h2>".data, 0⟩ ∧
    (regexp.Match accessDeniedPattern body).2 = none ∧
    ((regexp.Match accessDeniedPattern body).1 = true ↔
      Contains body "<h2>Access Denied</h2>") ∧
    (∀ (session : Session) (status : Int),
      session.client.Get apiKeyURL = .ok ⟨status, ⟨body, none⟩⟩ →
      ¬ Contains body "<h2>Access Denied</h2>" →
      (GetWebAPIKey session).1.2 ≠ some .ErrAccessDenied) := by
  obtain ⟨he, hm⟩ := regexp_Match_accessDenied body
  refine ⟨by decide, rfl, he, hm, ?_⟩
  intro session status hget hden
  by_cases hk : HasKeyFragment body
  · obtain ⟨h, hl⟩ := hasKeyFragment_leftmost body hk
    rw [GetWebAPIKey_found session _ body h hget rfl hden hl]
    simp
  · rw [GetWebAPIKey_notFound session _ body hget rfl hden hk]
    simp

/-- Witness of C14: the words in lower case, and in `h1` tags, are not a
denial. -/
theorem C14_denial_check_literal_witness :
    (GetWebAPIKey ⟨stubClient (.ok ⟨200, ⟨"<h2>access denied</h2>", none⟩⟩), "sid", ""⟩).1.2
      ≠ some .ErrAccessDenied ∧
    (GetWebAPIKey ⟨stubClient (.ok ⟨200, ⟨"<h1>Access Denied</h1>", none⟩⟩), "sid", ""⟩).1.2
      ≠ some .ErrAccessDenied :=
  ⟨(C14_denial_check_literal "<h2>access denied</h2>").2.2.2.2 _ 200 rfl (by decide),
   (C14_denial_check_literal "<h1>Access Denied</h1>").2.2.2.2 _ 200 rfl (by decide)⟩

/-- C15 (as amended): the body `RegisterWebAPIKey` sends is
`Submit=Register&agreeToTerms=agreed&domain=Q(domain)&sessionid=Q(sessionID)`,
the fields in the byte order of their keys; decoding it as a form gives back
the four fields with the original domain and sessionID; and when the first
character of the domain that `Q` escapes is not `%`, the body does not
contain the raw text `domain=<domain>`. -/
theorem C15_register_body_exact (session : Session) (domain : String) :
    (registerRequest session domain).Body
      = "Submit=Register&agreeToTerms=agreed&domain=" ++ url.QueryEscape domain
          ++ "&sessionid=" ++ url.QueryEscape session.sessionID ∧
    (url.less "Submit".data "agreeToTerms".data = true ∧
      url.less "agreeToTerms".data "domain".data = true ∧
      url.less "domain".data "sessionid".data = true) ∧
    url.ParseQuery (registerRequest session domain).Body
      = ([("Submit", ["Register"]), ("agreeToTerms", ["agreed"]), ("domain", [domain]),
          ("sessionid", [session.sessionID])], none) ∧
    (∀ (u : List Char) (c : Char) (r : List Char),
      domain.data = u ++ c :: r →
      (∀ x ∈ u, isUnreserved x = true) → isUnreserved c = false → c ≠ '%' →
      ¬ Contains (registerRequest session domain).Body ("domain=" ++ domain)) :=
  ⟨registerValues_Encode session domain, ⟨by decide, by decide, by decide⟩,
    ParseQuery_registerRequest session domain,
    fun u c r hd hu hc hp => registerRequest_body_no_raw_domain session domain u c r hd hu hc hp⟩

set_option maxRecDepth 100000 in
/-- Witness of C15 (as amended): the domain `exa/mple.com`. -/
theorem C15_register_body_exact_witness :
    (registerRequest ⟨stubClient (.ok ⟨200, ⟨"", none⟩⟩), "0123456789abcdef01234567", ""⟩
        "exa/mple.com").Body
      = "Submit=Register&agreeToTerms=agreed&domain=exa%2Fmple.com&sessionid=0123456789abcdef01234567" ∧
    ¬ Contains (registerRequest ⟨stubClient (.ok ⟨200, ⟨"", none⟩⟩),
        "0123456789abcdef01234567", ""⟩ "exa/mple.com").Body "domain=exa/mple.com" :=
  ⟨by decide,
   (C15_register_body_exact ⟨stubClient (.ok ⟨200, ⟨"", none⟩⟩), "0123456789abcdef01234567",
      ""⟩ "exa/mple.com").2.2.2 "exa".data '/' "mple.com".data rfl (by decide) (by decide)
      (by decide)⟩

set_option maxRecDepth 100000 in
/-- C15 as stated fails: the domain `%` has a character that `Q` escapes
(`Q("%")` is `%25`), and the body sent,
`Submit=Register&agreeToTerms=agreed&domain=%25&sessionid=0123456789abcdef01234567`,
contains the raw text `domain=%`. -/
theorem C15_counterexample :
    url.QueryEscape "%" = "%25" ∧
    (registerRequest ⟨stubClient (.ok ⟨200, ⟨"", none⟩⟩), "0123456789abcdef01234567", ""⟩
        "%").Body
      = "Submit=Register&agreeToTerms=agreed&domain=%25&sessionid=0123456789abcdef01234567" ∧
    Contains (registerRequest ⟨stubClient (.ok ⟨200, ⟨"", none⟩⟩),
      "0123456789abcdef01234567", ""⟩ "%").Body "domain=%" := by
  decide

/-- C16: when the body has no denial marker and every fragment
`<p>Key: X</p>` in it has `X` empty or with a character outside `0-9A-F`,
`GetWebAPIKey` returns `ErrKeyNotFound` and leaves the `apiKey` as it was. -/
theorem C16_only_upper_hex_accepted (session : Session) (status : Int) (body : String)
    (hget : session.client.Get apiKeyURL = .ok ⟨status, ⟨body, none⟩⟩)
    (hden : ¬ Contains body "<h2>Access Denied</h2>")
    (honly : ∀ pre x post : List Char,
      body.data = pre ++ "<p>Key: ".data ++ x ++ "</p>".data ++ post →
      x = [] ∨ ∃ c ∈ x, isUpperHex c = false) :
    (GetWebAPIKey session).1 = ("", some .ErrKeyNotFound) ∧
    (GetWebAPIKey session).2.apiKey = session.apiKey := by
  rw [GetWebAPIKey_notFound session _ body hget rfl hden
    (not_hasKeyFragment_of_only_bad body honly)]
  exact ⟨rfl, rfl⟩

/-- Witness of C16: a lower-case token and an empty token. -/
theorem C16_only_upper_hex_accepted_witness :
    ((GetWebAPIKey ⟨stubClient (.ok ⟨200, ⟨"<p>Key: 1a2b3c4d</p>", none⟩⟩), "sid", "0LD"⟩).1
        = ("", some .ErrKeyNotFound) ∧
      (GetWebAPIKey ⟨stubClient (.ok ⟨200, ⟨"<p>Key: 1a2b3c4d</p>", none⟩⟩), "sid",
        "0LD"⟩).2.apiKey = "0LD") ∧
    ((GetWebAPIKey ⟨stubClient (.ok ⟨200, ⟨"<p>Key: </p>", none⟩⟩), "sid", "0LD"⟩).1
        = ("", some .ErrKeyNotFound) ∧
      (GetWebAPIKey ⟨stubClient (.ok ⟨200, ⟨"<p>Key: </p>", none⟩⟩), "sid", "0LD"⟩).2.apiKey
        = "0LD") :=
  ⟨C16_only_upper_hex_accepted _ 200 "<p>Key: 1a2b3c4d</p>" rfl (by decide)
      (only_bad_fragments_of_search_none "<p>Key: 1a2b3c4d</p>" (by decide)),
   C16_only_upper_hex_accepted _ 200 "<p>Key: </p>" rfl (by decide)
      (only_bad_fragments_of_search_none "<p>Key: </p>" (by decide))⟩

/-- C17: on every body read without error exactly one of three outcomes
results, `ErrAccessDenied`, `ErrKeyNotFound`, or a key with no error, and the
submatch list is empty or has exactly two elements, so that `submatch[1]`
is in bounds whenever it is reached. -/
theorem C17_outcomes_exhaustive (session : Session) (status : Int) (body : String)
    (hget : session.client.Get apiKeyURL = .ok ⟨status, ⟨body, none⟩⟩) :
    (((GetWebAPIKey session).1 = ("", some .ErrAccessDenied) ∧
        (GetWebAPIKey session).1.2 ≠ some .ErrKeyNotFound ∧
        (GetWebAPIKey session).1.2 ≠ none) ∨
      ((GetWebAPIKey session).1 = ("", some .ErrKeyNotFound) ∧
        (GetWebAPIKey session).1.2 ≠ some .ErrAccessDenied ∧
        (GetWebAPIKey session).1.2 ≠ none) ∨
      (((GetWebAPIKey session).1.2 = none ∧ IsKeyToken (GetWebAPIKey session).1.1) ∧
        (GetWebAPIKey session).1.2 ≠ some .ErrAccessDenied ∧
        (GetWebAPIKey session).1.2 ≠ some .ErrKeyNotFound)) ∧
    (keyRegExp.FindStringSubmatch body = [] ∨
      ∃ whole token, keyRegExp.FindStringSubmatch body = [whole, token]) ∧
    ((keyRegExp.FindStringSubmatch body).length = 0 ∨
      (keyRegExp.FindStringSubmatch body).length = 2) := by
  have hshape : keyRegExp.FindStringSubmatch body = [] ∨
      ∃ whole token, keyRegExp.FindStringSubmatch body = [whole, token] := by
    rcases findStringSubmatch_key_shape body with ⟨-, h⟩ | ⟨h, -, hh⟩
    · exact Or.inl h
    · exact Or.inr ⟨_, _, hh⟩
  refine ⟨?_, hshape, ?_⟩
  · by_cases hden : Contains body accessDeniedPattern
    · rw [GetWebAPIKey_denied session _ body hget rfl hden]
      simp
    · by_cases hk : HasKeyFragment body
      · obtain ⟨h, hl⟩ := hasKeyFragment_leftmost body hk
        rw [GetWebAPIKey_found session _ body h hget rfl hden hl]
        obtain ⟨n, ⟨htok, -⟩, -⟩ := hl
        simp [htok]
      · rw [GetWebAPIKey_notFound session _ body hget rfl hden hk]
        simp
  · rcases hshape with h | ⟨w, t, h⟩
    · exact Or.inl (by rw [h]; rfl)
    · exact Or.inr (by rw [h]; rfl)

/-- Witness of C17: a page with two key fragments. -/
theorem C17_outcomes_exhaustive_witness :
    keyRegExp.FindStringSubmatch "<p>Key: AB</p><p>Key: CD</p>" = ["<p>Key: AB</p>", "AB"] ∧
    ((keyRegExp.FindStringSubmatch "<p>Key: AB</p><p>Key: CD</p>").length = 0 ∨
      (keyRegExp.FindStringSubmatch "<p>Key: AB</p><p>Key: CD</p>").length = 2) :=
  ⟨by decide,
   (C17_outcomes_exhaustive ⟨stubClient (.ok ⟨200, ⟨"<p>Key: AB</p><p>Key: CD</p>", none⟩⟩),
      "sid", ""⟩ 200 "<p>Key: AB</p><p>Key: CD</p>" rfl).2.2⟩

end Steam

